import Mathlib

/-!
Verification development for the DXIL amplification-shader payload
instrumentation passes of `driver/d3d12/d3d12_postvs.cpp`:

* `PayloadBufferCopy` — the type-directed payload copier that serializes /
  deserializes a nested aggregate between groupshared memory and a raw
  byte-addressable UAV buffer;
* `AddDXILAmpShaderPayloadStores` — the payload-store injector pass;
* `ConvertToFixedDXILAmpFeeder` — the fixed-dispatch feeder synthesizer pass.

The C++ functions are shallowly embedded: types (`DXIL::Type`) become the
inductive `DXILType`, the instruction sequences the passes emit become lists
of abstract instructions, and 32-bit GPU arithmetic is `Nat` with explicit
`% 2^32` where wrap-around matters.  The emitted copy instructions are given
an executable semantics over a byte-addressed buffer and a path-addressed
payload, which lets round-trip and cursor-accounting properties be proved and
evaluated on concrete inputs.
-/

/-- Scalar kind of a DXIL scalar type (`DXIL::Type::scalarType`); only the
Int/Float distinction is relevant to `makeBufferLoadStoreSuffix`. -/
inductive ScalarKind where
  | Int
  | Float
deriving DecidableEq, Repr

/-- Shallow embedding of the `DXIL::Type` shapes the payload copier traverses:
scalar leaves with a bit width, fixed-count arrays, and (named) aggregates
with an ordered member list.  `Unsupported` stands for every other
`DXIL::Type` shape (pointer, function, vector, label, metadata), for which
`PayloadBufferCopy` logs `RDCERR` and emits nothing. -/
inductive DXILType where
  | Scalar (kind : ScalarKind) (bitWidth : Nat)
  | Array (inner : DXILType) (elemCount : Nat)
  | Struct (members : List DXILType)
  | Unsupported

/-- Direction argument of `PayloadBufferCopy` (`enum PayloadCopyDir`). -/
inductive PayloadCopyDir where
  | BufferToPayload
  | PayloadToBuffer
deriving DecidableEq, Repr

/-- `makeBufferLoadStoreSuffix`: the raw-buffer load/store operation variant
key, `'f'`/`'i'` by scalar kind followed by the bit width. -/
def makeBufferLoadStoreSuffix (kind : ScalarKind) (bitWidth : Nat) : String :=
  (match kind with
   | ScalarKind.Float => "f"
   | ScalarKind.Int => "i") ++ toString bitWidth

/-- Abstract form of the instructions `PayloadBufferCopy` emits for one
scalar leaf.  `addOffset rel` is the `Operation::Add` of the runtime
`baseOffset` instruction and the constant cursor `uavByteOffset`;
`rawBufLoad`/`rawBufStore` are the `dx.op.rawBufferLoad.<suffix>` /
`dx.op.rawBufferStore.<suffix>` calls on the capture handle at the current
offset register (single component, mask 0x1); `extractVal0` is the
`Operation::ExtractVal` of component 0 of the load's `ResRet`;
`loadPayload`/`storePayload` are the `Operation::Load`/`Operation::Store`
through the constant GEP identified by the index chain `path`. -/
inductive CopyInstr where
  | addOffset (rel : Nat)
  | rawBufLoad (kind : ScalarKind) (bitWidth : Nat) (align : Nat)
  | extractVal0
  | storePayload (path : List Nat) (align : Nat)
  | loadPayload (path : List Nat) (bitWidth : Nat) (align : Nat)
  | rawBufStore (kind : ScalarKind) (bitWidth : Nat) (align : Nat)
deriving DecidableEq, Repr

mutual

/-- Shallow embedding of `PayloadBufferCopy`.  Given the direction, the
member type, the running byte cursor `uavByteOffset` and the GEP index chain
(the constant indices after the payload variable), it returns the emitted
instruction list and the advanced cursor.  The scalar case mirrors the
source order exactly: for `BufferToPayload` the offset add, the raw buffer
load, the `ExtractVal`, then the payload store; for `PayloadToBuffer` the
payload load, the offset add, then the raw buffer store.  The alignment is
`RDCMAX(4, bitWidth/8)`.  Arrays recurse once per element index left to
right; structs recurse once per member in declaration order; any other type
shape emits nothing (`RDCERR`). -/
def PayloadBufferCopy (dir : PayloadCopyDir) :
    DXILType → Nat → List Nat → List CopyInstr × Nat
  | DXILType.Scalar kind w, uavByteOffset, gepChain =>
    let alignment := max 4 (w / 8)
    match dir with
    | PayloadCopyDir.BufferToPayload =>
      ([CopyInstr.addOffset uavByteOffset,
        CopyInstr.rawBufLoad kind w alignment,
        CopyInstr.extractVal0,
        CopyInstr.storePayload gepChain alignment],
       uavByteOffset + w / 8)
    | PayloadCopyDir.PayloadToBuffer =>
      ([CopyInstr.loadPayload gepChain w alignment,
        CopyInstr.addOffset uavByteOffset,
        CopyInstr.rawBufStore kind w alignment],
       uavByteOffset + w / 8)
  | DXILType.Array inner elemCount, uavByteOffset, gepChain =>
    copyArrayElems dir inner elemCount 0 uavByteOffset gepChain
  | DXILType.Struct members, uavByteOffset, gepChain =>
    copyStructMembers dir members 0 uavByteOffset gepChain
  | DXILType.Unsupported, uavByteOffset, _ => ([], uavByteOffset)
  termination_by t _ _ => (sizeOf t, 0)

/-- The `for(i = 0; i < memberType->elemCount; i++)` loop of
`PayloadBufferCopy` for array types, with `i` the next element index and
`rem` the number of elements still to emit. -/
def copyArrayElems (dir : PayloadCopyDir) (inner : DXILType) :
    Nat → Nat → Nat → List Nat → List CopyInstr × Nat
  | 0, _, uavByteOffset, _ => ([], uavByteOffset)
  | rem + 1, i, uavByteOffset, gepChain =>
    let r := PayloadBufferCopy dir inner uavByteOffset (gepChain ++ [i])
    let rest := copyArrayElems dir inner rem (i + 1) r.2 gepChain
    (r.1 ++ rest.1, rest.2)
  termination_by rem _ _ _ => (sizeOf inner + rem, 1)

/-- The `for(i = 0; i < memberType->members.size(); i++)` loop of
`PayloadBufferCopy` for struct types. -/
def copyStructMembers (dir : PayloadCopyDir) :
    List DXILType → Nat → Nat → List Nat → List CopyInstr × Nat
  | [], _, uavByteOffset, _ => ([], uavByteOffset)
  | m :: rest, i, uavByteOffset, gepChain =>
    let r := PayloadBufferCopy dir m uavByteOffset (gepChain ++ [i])
    let r2 := copyStructMembers dir rest (i + 1) r.2 gepChain
    (r.1 ++ r2.1, r2.2)
  termination_by ms _ _ _ => (sizeOf ms, 1)

end

/-- One scalar leaf reached by the copier traversal: its GEP index chain,
scalar kind, bit width, and the byte cursor value at which it is copied. -/
structure Leaf where
  path : List Nat
  kind : ScalarKind
  bitWidth : Nat
  off : Nat
deriving DecidableEq, Repr

mutual

/-- The scalar leaves visited by `PayloadBufferCopy` on type `t` starting
from index chain `p` and cursor `c`, in traversal (depth-first, declaration)
order, each with the cursor value at which it is copied. -/
def leavesOf : DXILType → List Nat → Nat → List Leaf
  | DXILType.Scalar kind w, p, c => [⟨p, kind, w, c⟩]
  | DXILType.Array inner elemCount, p, c => leavesArray inner elemCount 0 p c
  | DXILType.Struct members, p, c => leavesStruct members 0 p c
  | DXILType.Unsupported, _, _ => []
  termination_by t _ _ => (sizeOf t, 0)

/-- Leaves of the remaining `rem` elements of an array, next index `i`. -/
def leavesArray (inner : DXILType) : Nat → Nat → List Nat → Nat → List Leaf
  | 0, _, _, _ => []
  | rem + 1, i, p, c =>
    let l := leavesOf inner (p ++ [i]) c
    l ++ leavesArray inner rem (i + 1) p (c + leafBytes inner)
  termination_by rem _ _ _ => (sizeOf inner + rem, 1)

/-- Leaves of the remaining struct members, next index `i`. -/
def leavesStruct : List DXILType → Nat → List Nat → Nat → List Leaf
  | [], _, _, _ => []
  | m :: rest, i, p, c =>
    leavesOf m (p ++ [i]) c ++ leavesStruct rest (i + 1) p (c + leafBytes m)
  termination_by ms _ _ _ => (sizeOf ms, 1)

/-- Total number of buffer bytes occupied by the scalar leaves of a type:
`bitWidth/8` per leaf, tightly packed with no padding. -/
def leafBytes : DXILType → Nat
  | DXILType.Scalar _ w => w / 8
  | DXILType.Array inner elemCount => elemCount * leafBytes inner
  | DXILType.Struct members => leafBytesList members
  | DXILType.Unsupported => 0
  termination_by t => (sizeOf t, 0)

/-- Sum of `leafBytes` over a member list. -/
def leafBytesList : List DXILType → Nat
  | [] => 0
  | m :: rest => leafBytes m + leafBytesList rest
  termination_by ms => (sizeOf ms, 1)

end

/-- The instruction group `PayloadBufferCopy` emits for one scalar leaf. -/
def leafGroup (dir : PayloadCopyDir) (l : Leaf) : List CopyInstr :=
  let alignment := max 4 (l.bitWidth / 8)
  match dir with
  | PayloadCopyDir.BufferToPayload =>
    [CopyInstr.addOffset l.off,
     CopyInstr.rawBufLoad l.kind l.bitWidth alignment,
     CopyInstr.extractVal0,
     CopyInstr.storePayload l.path alignment]
  | PayloadCopyDir.PayloadToBuffer =>
    [CopyInstr.loadPayload l.path l.bitWidth alignment,
     CopyInstr.addOffset l.off,
     CopyInstr.rawBufStore l.kind l.bitWidth alignment]

/-- Byte-addressable view of the capture UAV buffer: a map from byte address
to byte value. -/
def Buf : Type := Nat → Nat

/-- Little-endian read of `n` bytes starting at `off`, as performed by a
`dx.op.rawBufferLoad.<suffix>` of an `n*8`-bit scalar. -/
def readBytes (B : Buf) (off : Nat) : Nat → Nat
  | 0 => 0
  | n + 1 => B off + 256 * readBytes B (off + 1) n

/-- Little-endian write of the low `n` bytes of `v` starting at `off`, as
performed by a `dx.op.rawBufferStore.<suffix>` of an `n*8`-bit scalar. -/
def writeBytes (B : Buf) (off n v : Nat) : Buf :=
  fun a => if off ≤ a ∧ a < off + n then v / 256 ^ (a - off) % 256 else B a

/-- Execution state for the copy-instruction semantics: the offset register
(result of the last `Operation::Add` offset instruction), the `ResRet`
register (result of the last raw buffer load), the source register (last
`ExtractVal`/payload load), the groupshared payload (addressed by GEP index
chain) and the capture buffer (addressed by byte). -/
structure CopyState where
  offsetReg : Nat
  retReg : Nat
  srcReg : Nat
  payload : List Nat → Nat
  buf : Buf

/-- Semantics of one emitted copy instruction, relative to the runtime value
`base` of the `baseOffset` instruction. -/
def execCopyInstr (base : Nat) (s : CopyState) : CopyInstr → CopyState
  | CopyInstr.addOffset rel => { s with offsetReg := base + rel }
  | CopyInstr.rawBufLoad _ w _ =>
    { s with retReg := readBytes s.buf s.offsetReg (w / 8) }
  | CopyInstr.extractVal0 => { s with srcReg := s.retReg }
  | CopyInstr.storePayload p _ =>
    { s with payload := fun q => if q = p then s.srcReg else s.payload q }
  | CopyInstr.loadPayload p _ _ => { s with srcReg := s.payload p }
  | CopyInstr.rawBufStore _ w _ =>
    { s with buf := writeBytes s.buf s.offsetReg (w / 8) s.srcReg }

/-- Execution of an emitted copy-instruction sequence. -/
def execCopy (base : Nat) (l : List CopyInstr) (s : CopyState) : CopyState :=
  l.foldl (execCopyInstr base) s

/-- Net effect on the buffer of the `PayloadToBuffer` leaf groups: each leaf
value is written at `base + off`, in traversal order. -/
def writeLeaves (base : Nat) (P : List Nat → Nat) : List Leaf → Buf → Buf
  | [], B => B
  | l :: ls, B =>
    writeLeaves base P ls (writeBytes B (base + l.off) (l.bitWidth / 8) (P l.path))

/-- Net effect on the payload of the `BufferToPayload` leaf groups: each leaf
path receives the bytes read at `base + off`, in traversal order. -/
def readLeaves (base : Nat) (B : Buf) : List Leaf → (List Nat → Nat) → List Nat → Nat
  | [], P => P
  | l :: ls, P =>
    readLeaves base B ls
      (fun q => if q = l.path then readBytes B (base + l.off) (l.bitWidth / 8) else P q)

/-- The leaf offsets of a traversal are tightly packed starting at `c`: each
leaf sits at the running cursor and advances it by `bitWidth/8`. -/
def packedFrom : Nat → List Leaf → Prop
  | _, [] => True
  | c, l :: ls => l.off = c ∧ packedFrom (c + l.bitWidth / 8) ls

/-- Total packed byte size of a leaf list. -/
def totalLeafW : List Leaf → Nat
  | [] => 0
  | l :: ls => l.bitWidth / 8 + totalLeafW ls

mutual

/-- The payload-type well-formedness required by the copier: every leaf is a
scalar of bit width 8, 16, 32 or 64, and no unsupported type shape occurs. -/
def wellFormedTy : DXILType → Bool
  | DXILType.Scalar _ w => w = 8 || w = 16 || w = 32 || w = 64
  | DXILType.Array inner _ => wellFormedTy inner
  | DXILType.Struct ms => wellFormedTyList ms
  | DXILType.Unsupported => false
  termination_by t => (sizeOf t, 0)

def wellFormedTyList : List DXILType → Bool
  | [] => true
  | m :: rest => wellFormedTy m && wellFormedTyList rest
  termination_by ms => (sizeOf ms, 1)

end

/-- Concrete payload type for evaluation: the spec's running example
`{float32 a; int32 b[2]}`. -/
def wTy1 : DXILType :=
  DXILType.Struct
    [DXILType.Scalar ScalarKind.Float 32,
     DXILType.Array (DXILType.Scalar ScalarKind.Int 32) 2]

/-- Concrete payload contents for evaluation. -/
def wP1 : List Nat → Nat :=
  fun q => if q = [0] then 1065353216 else if q = [1, 0] then 11 else
    if q = [1, 1] then 22 else 0

/-- Concrete (zeroed) buffer for evaluation. -/
def wB1 : Buf := fun _ => 0

/-- The UAV slot-id scan of both passes: fold over the existing UAV records'
slot-id metadata (`none` models a non-constant slot id, which is reported
with `RDCWARN` and skipped), starting from `regSlot = 0` and taking
`regSlot = RDCMAX(id + 1, regSlot)` for each constant id. -/
def computeRegSlot (uavs : List (Option Nat)) : Nat :=
  uavs.foldl
    (fun regSlot slot =>
      match slot with
      | none => regSlot
      | some id => max (id + 1) regSlot) 0

/-- The injector's shader-flags patch (`AddDXILAmpShaderPayloadStores`):
`shaderFlagsValue |= 0x10` (raw and structured buffers) followed by
`shaderFlagsValue |= 0x10000` (UAVs on non-PS/CS stages), applied to the
flags value read from the existing tag (or 0 when absent). -/
def patchShaderFlagsInjector (v : Nat) : Nat :=
  (v ||| 0x10) ||| 0x10000

/-- 32-bit wrap-around of the GPU's i32 arithmetic and of the host's
`uint32_t` arithmetic. -/
def u32 (n : Nat) : Nat := n % 4294967296

/-- Symbolic SSA values of the instrumented programs.  Each constructor
stands for the constant or instruction result the C++ code passes as an
operand (`editor.CreateConstant`, `editor.CreateUndef`, or the result of a
`CreateInstruction` call). -/
inductive FVal where
  | constI32 (n : Nat)
  | constI8 (n : Nat)
  | constBool (b : Bool)
  | undef
  | globalPayloadVar
  | createHandleV (regSlot : Nat)
  | createHandleFromBindingV (space : Nat)
  | annotateHandleV (inner : FVal)
  | groupIdV (dim : Nat)
  | flattenedThreadIdInGroupV
  | mulV (a b : FVal)
  | addV (a b : FVal)
  | ieqV (a b : FVal)
  | rawBufferLoadV (handle offset : FVal) (mask : Nat) (align : Nat)
  | extractValV (src : FVal) (idx : Nat)
  | origV (k : Nat)
deriving DecidableEq, Repr

/-- Whether a value is a literal constant of the program. -/
def isConstFVal : FVal → Bool
  | FVal.constI32 _ => true
  | FVal.constI8 _ => true
  | FVal.constBool _ => true
  | _ => false

/-- Instructions of the (instrumented) entry function, at the granularity
the two passes emit them.  `compute v` is a value-producing instruction
whose result is `v`; `copy` wraps an instruction emitted by
`PayloadBufferCopy`; `orig k` is an untouched instruction of the original
function body. -/
inductive FInstr where
  | compute (v : FVal)
  | copy (c : CopyInstr)
  | barrier (mode : Nat)
  | rawBufferStoreTo (handle offset value : FVal) (mask : Nat) (align : Nat)
  | storePayloadIdx (path : List Nat) (value : FVal) (align : Nat)
  | dispatchMesh (x y z payload : FVal)
  | condBranch (cond : FVal) (onTrue onFalse : Nat)
  | branch (target : Nat)
  | ret
  | orig (k : Nat)
deriving DecidableEq, Repr

/-- Block-ending instructions (`Operation::Branch`, conditional branch,
`Operation::Ret`; the model's original instructions carry no other
terminator kinds). -/
def isTerminator : FInstr → Bool
  | FInstr.condBranch _ _ _ => true
  | FInstr.branch _ => true
  | FInstr.ret => true
  | _ => false

/-- Block labels an instruction can transfer control to. -/
def branchTargets : FInstr → List Nat
  | FInstr.condBranch _ t f => [t, f]
  | FInstr.branch t => [t]
  | _ => []

/-- Grouping of a flat instruction stream into basic blocks: a block ends at
each terminator (mirroring the `curBlock` accounting of the injector's
instruction scan); a trailing run without terminator forms a final block. -/
def blocksAux : List FInstr → List FInstr → List (List FInstr)
  | acc, [] => if acc.isEmpty then [] else [acc]
  | acc, i :: rest =>
    if isTerminator i then (acc ++ [i]) :: blocksAux [] rest
    else blocksAux (acc ++ [i]) rest

def blocksOf (l : List FInstr) : List (List FInstr) := blocksAux [] l

/-- Per-thread evaluation environment: the thread's group id per dimension
and its flattened thread index in the group. -/
structure GpuEnv where
  groupId : Nat → Nat
  flatThreadId : Nat

/-- Evaluation of the symbolic values the claims inspect (i32 arithmetic
wraps at 2^32; handle/buffer-dependent values, which no claim evaluates,
are 0). -/
def evalFVal (env : GpuEnv) : FVal → Nat
  | FVal.constI32 n => u32 n
  | FVal.constI8 n => n % 256
  | FVal.constBool b => if b then 1 else 0
  | FVal.undef => 0
  | FVal.globalPayloadVar => 0
  | FVal.createHandleV _ => 0
  | FVal.createHandleFromBindingV _ => 0
  | FVal.annotateHandleV _ => 0
  | FVal.groupIdV d => u32 (env.groupId d)
  | FVal.flattenedThreadIdInGroupV => u32 env.flatThreadId
  | FVal.mulV a b => u32 (evalFVal env a * evalFVal env b)
  | FVal.addV a b => u32 (evalFVal env a + evalFVal env b)
  | FVal.ieqV a b => if evalFVal env a = evalFVal env b then 1 else 0
  | FVal.rawBufferLoadV _ _ _ _ => 0
  | FVal.extractValV _ _ => 0
  | FVal.origV _ => 0

/-- One thread's straight-line execution over the block list, returning the
trace of instructions it executes.  Control follows the final instruction of
each block: a conditional branch takes `onTrue` when its condition value is
nonzero, a plain branch jumps, anything else halts. -/
def runBlocks (blocks : List (List FInstr)) (env : GpuEnv) : Nat → Nat → List FInstr
  | 0, _ => []
  | fuel + 1, bi =>
    match blocks[bi]? with
    | none => []
    | some blk =>
      blk ++
        match blk.getLast? with
        | some (FInstr.condBranch cond t f) =>
          if evalFVal env cond ≠ 0 then runBlocks blocks env fuel t
          else runBlocks blocks env fuel f
        | some (FInstr.branch t) => runBlocks blocks env fuel t
        | _ => []

/-- The capture-handle SSA value: `dx.op.createHandle` below SM 6.6, else
`dx.op.createHandleFromBinding` followed by `dx.op.annotateHandle`. -/
def captureHandle (sm66 : Bool) (space regSlot : Nat) : FVal :=
  if sm66 then FVal.annotateHandleV (FVal.createHandleFromBindingV space)
  else FVal.createHandleV regSlot

/-- The handle-creation instructions both passes emit first. -/
def handleCreationInstrs (sm66 : Bool) (space regSlot : Nat) : List FInstr :=
  if sm66 then
    [FInstr.compute (FVal.createHandleFromBindingV space),
     FInstr.compute (FVal.annotateHandleV (FVal.createHandleFromBindingV space))]
  else
    [FInstr.compute (FVal.createHandleV regSlot)]

/-- Injector: result of `Mul(dimX, dimY)` on the two dispatch-dimension
constants. -/
def injDimXY (dimX dimY : Nat) : FVal :=
  FVal.mulV (FVal.constI32 dimX) (FVal.constI32 dimY)

/-- Injector: `Mul(groupY, dimX)`. -/
def injGroupYMul (dimX : Nat) : FVal :=
  FVal.mulV (FVal.groupIdV 1) (FVal.constI32 dimX)

/-- Injector: `Mul(groupZ, dimXY)`. -/
def injGroupZMul (dimX dimY : Nat) : FVal :=
  FVal.mulV (FVal.groupIdV 2) (injDimXY dimX dimY)

/-- Injector: `Add(groupYMul, groupZMul)`. -/
def injGroupYZAdd (dimX dimY : Nat) : FVal :=
  FVal.addV (injGroupYMul dimX) (injGroupZMul dimX dimY)

/-- Injector: linear workgroup slot `Add(groupX, groupYZAdd)`, i.e.
`groupX + groupY*dimX + groupZ*dimX*dimY` in wrapped i32 arithmetic. -/
def injFlatIndex (dimX dimY : Nat) : FVal :=
  FVal.addV (FVal.groupIdV 0) (injGroupYZAdd dimX dimY)

/-- Injector: byte offset of this workgroup's capture slot,
`Mul(flatIndex, payloadSize + 16)`. -/
def injBaseOffset (dimX dimY payloadSize : Nat) : FVal :=
  FVal.mulV (injFlatIndex dimX dimY) (FVal.constI32 (payloadSize + 16))

/-- The instructions the injector inserts at the very start of the entry
function (source order: handle creation, the three `groupId` calls, the
flattened-thread-id call, `dimXY`, `groupYMul`, `groupZMul`, `groupYZAdd`,
`flatIndex`, `baseOffset`). -/
def injPrelimInstrs (sm66 : Bool) (space regSlot dimX dimY payloadSize : Nat) :
    List FInstr :=
  handleCreationInstrs sm66 space regSlot ++
  [FInstr.compute (FVal.groupIdV 0),
   FInstr.compute (FVal.groupIdV 1),
   FInstr.compute (FVal.groupIdV 2),
   FInstr.compute FVal.flattenedThreadIdInGroupV,
   FInstr.compute (injDimXY dimX dimY),
   FInstr.compute (injGroupYMul dimX),
   FInstr.compute (injGroupZMul dimX dimY),
   FInstr.compute (injGroupYZAdd dimX dimY),
   FInstr.compute (injFlatIndex dimX dimY),
   FInstr.compute (injBaseOffset dimX dimY payloadSize)]

/-- The thread-is-zero comparison `IEqual(flatId, 0)`. -/
def injThreadIsZero : FVal :=
  FVal.ieqV FVal.flattenedThreadIdInGroupV (FVal.constI32 0)

/-- The contents of the injector's new capture (true) block: the full
barrier `0x1 | 0x8`, the three header stores of the original
dispatch-dimension arguments at offsets 0, 4, 8 of `baseOffset`, the
payload-to-buffer copy of every payload member starting at cursor 16, and
the closing branch to the continue block. -/
def injCaptureBlock (sm66 : Bool) (space regSlot dimX dimY payloadSize : Nat)
    (members : List DXILType) (a b c : FVal) (falseLbl : Nat) : List FInstr :=
  let handle := captureHandle sm66 space regSlot
  let baseOff := injBaseOffset dimX dimY payloadSize
  [FInstr.barrier 9,
   FInstr.rawBufferStoreTo handle baseOff a 1 4,
   FInstr.compute (FVal.addV baseOff (FVal.constI32 4)),
   FInstr.rawBufferStoreTo handle (FVal.addV baseOff (FVal.constI32 4)) b 1 4,
   FInstr.compute (FVal.addV baseOff (FVal.constI32 8)),
   FInstr.rawBufferStoreTo handle (FVal.addV baseOff (FVal.constI32 8)) c 1 4] ++
  (copyStructMembers PayloadCopyDir.PayloadToBuffer members 0 16 [0]).1.map
    FInstr.copy ++
  [FInstr.branch falseLbl]

/-- The instruction sequence the injector inserts at the dispatch call: the
thread-is-zero comparison and the conditional branch that split the block
(true to the new capture block, false to the continue block), followed by
the capture block's contents. -/
def injCaptureSeq (sm66 : Bool) (space regSlot dimX dimY payloadSize : Nat)
    (members : List DXILType) (a b c : FVal) (trueLbl falseLbl : Nat) :
    List FInstr :=
  [FInstr.compute injThreadIsZero,
   FInstr.condBranch injThreadIsZero trueLbl falseLbl] ++
  injCaptureBlock sm66 space regSlot dimX dimY payloadSize members a b c
    falseLbl

/-- Splits a function body at its first `dispatchMesh` call: the prefix, the
call's four arguments, and the suffix. -/
def splitAtDispatch : List FInstr → Option (List FInstr × (FVal × FVal × FVal × FVal) × List FInstr)
  | [] => none
  | FInstr.dispatchMesh x y z pv :: rest => some ([], (x, y, z, pv), rest)
  | i :: rest =>
    match splitAtDispatch rest with
    | none => none
    | some (pre, args, post) => some (i :: pre, args, post)

/-- Replace the named function's body. -/
def updateFunc : List (String × List FInstr) → String → List FInstr →
    List (String × List FInstr)
  | [], _, _ => []
  | (k, v) :: rest, name, body =>
    (if k = name then (k, body) else (k, v)) :: updateFunc rest name body

/-- The part of the parsed program model both passes consume: the existing
UAV records' slot ids (`none` for a non-constant id), whether the
`dx.entryPoints` named metadata exists, the entry point's name, the existing
shader-flags tag value, the amplification tag's payload byte size, the
payload struct's member types, the functions by name, the shader-model
switch and the capture register space. -/
structure AmpProgram where
  uavSlots : List (Option Nat)
  hasEntryPoints : Bool
  entryName : String
  shaderFlags : Option Nat
  payloadSize : Nat
  numThreads : List Nat
  payloadMembers : List DXILType
  funcs : List (String × List FInstr)
  sm66 : Bool
  space : Nat

/-- Observable result of `AddDXILAmpShaderPayloadStores` on the program
model: the UAV record list, the patched shader flags, the function bodies,
and whether the pass ran to completion (false when it returned early with
`RDCERR`). -/
structure InjectorResult where
  uavSlots : List (Option Nat)
  shaderFlags : Option Nat
  funcs : List (String × List FInstr)
  ok : Bool

/-- Shallow embedding of `AddDXILAmpShaderPayloadStores`.  In source order:
the UAV record is created and appended (slot id `computeRegSlot`); then the
`dx.entryPoints` metadata is required — missing, the pass logs and returns
with nothing else changed; the shader-flags tag gets `0x10` and `0x10000`
merged in; the entry function is looked up by name — missing, the pass logs
and returns; otherwise the prelim instructions are inserted at the front,
the block containing the first `dispatchMesh` call is split into prefix /
capture block / continue block (labels `curBlock + 1` and `curBlock + 2`,
where `curBlock` counts the terminators before the call), and the call's
three dimension arguments are overwritten with the constant 0.  A body with
no dispatch call keeps only the prelim insertion, mirroring the source's
scan finding nothing to patch. -/
def AddDXILAmpShaderPayloadStores (p : AmpProgram) (dimX dimY : Nat) :
    InjectorResult :=
  let regSlot := computeRegSlot p.uavSlots
  let uavSlots2 := p.uavSlots ++ [some regSlot]
  if !p.hasEntryPoints then
    { uavSlots := uavSlots2, shaderFlags := p.shaderFlags, funcs := p.funcs,
      ok := false }
  else
    let flags2 := patchShaderFlagsInjector (p.shaderFlags.getD 0)
    match p.funcs.lookup p.entryName with
    | none =>
      { uavSlots := uavSlots2, shaderFlags := some flags2, funcs := p.funcs,
        ok := false }
    | some body =>
      let prelim := injPrelimInstrs p.sm66 p.space regSlot dimX dimY p.payloadSize
      match splitAtDispatch body with
      | none =>
        { uavSlots := uavSlots2, shaderFlags := some flags2,
          funcs := updateFunc p.funcs p.entryName (prelim ++ body), ok := true }
      | some (pre, (a, b, c, pv), post) =>
        let curBlock := pre.countP (fun i => isTerminator i)
        let newBody :=
          prelim ++ pre ++
          injCaptureSeq p.sm66 p.space regSlot dimX dimY p.payloadSize
            p.payloadMembers a b c (curBlock + 1) (curBlock + 2) ++
          [FInstr.dispatchMesh (FVal.constI32 0) (FVal.constI32 0)
            (FVal.constI32 0) pv] ++
          post
        { uavSlots := uavSlots2, shaderFlags := some flags2,
          funcs := updateFunc p.funcs p.entryName newBody, ok := true }

/-- The feeder's shader-flags patch: merge `0x10` and `0x10000` and clear
the wave-ops flag `0x80000` (`shaderFlagsValue &= ~0x80000` on `uint32_t`). -/
def patchShaderFlagsFeeder (v : Nat) : Nat :=
  ((v ||| 0x10) ||| 0x10000) &&& 0xFFF7FFFF

/-- Feeder: `Mul(groupY, dispatchDim[0])`. -/
def fdGroupYMul (dimX : Nat) : FVal :=
  FVal.mulV (FVal.groupIdV 1) (FVal.constI32 dimX)

/-- Feeder: `Mul(groupZ, dispatchDim[0] * dispatchDim[1])` — the product is
computed on the host in `uint32_t` and emitted as one constant. -/
def fdGroupZMul (dimX dimY : Nat) : FVal :=
  FVal.mulV (FVal.groupIdV 2) (FVal.constI32 (u32 (dimX * dimY)))

/-- Feeder: `Add(groupYMul, groupZMul)`. -/
def fdGroupYZAdd (dimX dimY : Nat) : FVal :=
  FVal.addV (fdGroupYMul dimX) (fdGroupZMul dimX dimY)

/-- Feeder: linear workgroup slot `Add(groupX, groupYZAdd)`. -/
def fdFlatIndex (dimX dimY : Nat) : FVal :=
  FVal.addV (FVal.groupIdV 0) (fdGroupYZAdd dimX dimY)

/-- Feeder: byte offset of this workgroup's recorded slot. -/
def fdBaseOffset (dimX dimY payloadSize : Nat) : FVal :=
  FVal.mulV (fdFlatIndex dimX dimY) (FVal.constI32 (payloadSize + 16))

/-- Feeder: the single 16-byte header load — `dx.op.rawBufferLoad.i32` of
all four components (mask 0xf) at `baseOffset`, alignment 4. -/
def fdHeaderLoad (sm66 : Bool) (space regSlot dimX dimY payloadSize : Nat) : FVal :=
  FVal.rawBufferLoadV (captureHandle sm66 space regSlot)
    (fdBaseOffset dimX dimY payloadSize) 0xf 4

/-- Feeder: recorded dispatch dimension X — `ExtractVal 0` of the header load. -/
def fdDimX (sm66 : Bool) (space regSlot dimX dimY payloadSize : Nat) : FVal :=
  FVal.extractValV (fdHeaderLoad sm66 space regSlot dimX dimY payloadSize) 0

/-- Feeder: recorded dispatch dimension Y — `ExtractVal 1` of the header load. -/
def fdDimY (sm66 : Bool) (space regSlot dimX dimY payloadSize : Nat) : FVal :=
  FVal.extractValV (fdHeaderLoad sm66 space regSlot dimX dimY payloadSize) 1

/-- Feeder: recorded dispatch dimension Z — `ExtractVal 2` of the header load. -/
def fdDimZ (sm66 : Bool) (space regSlot dimX dimY payloadSize : Nat) : FVal :=
  FVal.extractValV (fdHeaderLoad sm66 space regSlot dimX dimY payloadSize) 2

/-- Feeder: recorded offset — `ExtractVal 3` of the header load. -/
def fdStoredOffset (sm66 : Bool) (space regSlot dimX dimY payloadSize : Nat) : FVal :=
  FVal.extractValV (fdHeaderLoad sm66 space regSlot dimX dimY payloadSize) 3

/-- The feeder's payload-copy loop
`for (i = 0; i < payloadType->members.size() - 4; i++)`: one
`PayloadBufferCopy` (buffer-to-payload) call per member index below
`size - 4`, sharing one cursor that starts at the caller's value, with GEP
chain `{payloadVariable, 0, i}`. -/
def feederCopyAux (ms : List DXILType) : Nat → Nat → Nat → List CopyInstr × Nat
  | 0, _, c => ([], c)
  | rem + 1, i, c =>
    let r := PayloadBufferCopy PayloadCopyDir.BufferToPayload
      (ms.getD i DXILType.Unsupported) c [0, i]
    let rest := feederCopyAux ms rem (i + 1) r.2
    (r.1 ++ rest.1, rest.2)

def feederCopyLoop (ms : List DXILType) (c0 : Nat) : List CopyInstr × Nat :=
  feederCopyAux ms (ms.length - 4) 0 c0

/-- The feeder's four plain stores of the decoded header scalars into the
four appended trailing payload members (indices `size-4` … `size-1`). -/
def feederHeaderStores (sm66 : Bool) (space regSlot dimX dimY payloadSize : Nat)
    (n : Nat) : List FInstr :=
  [FInstr.storePayloadIdx [0, n - 4]
     (fdDimX sm66 space regSlot dimX dimY payloadSize) 4,
   FInstr.storePayloadIdx [0, n - 4 + 1]
     (fdDimY sm66 space regSlot dimX dimY payloadSize) 4,
   FInstr.storePayloadIdx [0, n - 4 + 2]
     (fdDimZ sm66 space regSlot dimX dimY payloadSize) 4,
   FInstr.storePayloadIdx [0, n - 4 + 3]
     (fdStoredOffset sm66 space regSlot dimX dimY payloadSize) 4]

/-- The complete replacement body the feeder synthesizes, in source order:
handle creation, the three `groupId` calls, the slot linearization, the
base offset, the combined header load and its four `ExtractVal`s, the
buffer-to-payload copy of every original member (cursor from 16), the four
header-scalar stores into the appended members, the `dispatchMesh` call
with the recorded dimensions, and `ret`. -/
def feederBody (sm66 : Bool) (space regSlot dimX dimY payloadSize : Nat)
    (newMembers : List DXILType) : List FInstr :=
  handleCreationInstrs sm66 space regSlot ++
  [FInstr.compute (FVal.groupIdV 0),
   FInstr.compute (FVal.groupIdV 1),
   FInstr.compute (FVal.groupIdV 2),
   FInstr.compute (fdGroupYMul dimX),
   FInstr.compute (fdGroupZMul dimX dimY),
   FInstr.compute (fdGroupYZAdd dimX dimY),
   FInstr.compute (fdFlatIndex dimX dimY),
   FInstr.compute (fdBaseOffset dimX dimY payloadSize),
   FInstr.compute (fdHeaderLoad sm66 space regSlot dimX dimY payloadSize),
   FInstr.compute (fdDimX sm66 space regSlot dimX dimY payloadSize),
   FInstr.compute (fdDimY sm66 space regSlot dimX dimY payloadSize),
   FInstr.compute (fdDimZ sm66 space regSlot dimX dimY payloadSize),
   FInstr.compute (fdStoredOffset sm66 space regSlot dimX dimY payloadSize)] ++
  (feederCopyLoop newMembers 16).1.map FInstr.copy ++
  feederHeaderStores sm66 space regSlot dimX dimY payloadSize newMembers.length ++
  [FInstr.dispatchMesh (fdDimX sm66 space regSlot dimX dimY payloadSize)
     (fdDimY sm66 space regSlot dimX dimY payloadSize)
     (fdDimZ sm66 space regSlot dimX dimY payloadSize)
     FVal.globalPayloadVar,
   FInstr.ret]

/-- Observable result of `ConvertToFixedDXILAmpFeeder`: UAV records, shader
flags, the amplification tag's thread-group counts and payload byte size,
the payload member list, the functions, and whether the pass completed. -/
structure FeederResult where
  uavSlots : List (Option Nat)
  shaderFlags : Option Nat
  numThreads : List Nat
  declaredPayloadSize : Nat
  payloadMembers : List DXILType
  funcs : List (String × List FInstr)
  ok : Bool

/-- Shallow embedding of `ConvertToFixedDXILAmpFeeder`.  In source order:
the UAV record is appended; the `dx.entryPoints` metadata is required
(missing: log and return with nothing further changed); the shader flags
get `0x10` and `0x10000` merged and `0x80000` cleared, the amplification
tag's thread counts are forced to `{1,1,1}` and its payload size raised by
16; the entry function is looked up (missing: log and return); the first
`dispatchMesh` call identifies the payload variable, the payload struct
gets four trailing `i32` members appended, and the whole body is replaced
by `feederBody`.  A body with no dispatch call is modelled as leaving the
function untouched (the source would fail its payload-type assertion
there). -/
def ConvertToFixedDXILAmpFeeder (p : AmpProgram) (dimX dimY : Nat) :
    FeederResult :=
  let regSlot := computeRegSlot p.uavSlots
  let uavSlots2 := p.uavSlots ++ [some regSlot]
  if !p.hasEntryPoints then
    { uavSlots := uavSlots2, shaderFlags := p.shaderFlags,
      numThreads := p.numThreads, declaredPayloadSize := p.payloadSize,
      payloadMembers := p.payloadMembers, funcs := p.funcs, ok := false }
  else
    let flags2 := patchShaderFlagsFeeder (p.shaderFlags.getD 0)
    match p.funcs.lookup p.entryName with
    | none =>
      { uavSlots := uavSlots2, shaderFlags := some flags2,
        numThreads := [1, 1, 1], declaredPayloadSize := p.payloadSize + 16,
        payloadMembers := p.payloadMembers, funcs := p.funcs, ok := false }
    | some body =>
      match splitAtDispatch body with
      | none =>
        { uavSlots := uavSlots2, shaderFlags := some flags2,
          numThreads := [1, 1, 1], declaredPayloadSize := p.payloadSize + 16,
          payloadMembers := p.payloadMembers, funcs := p.funcs, ok := false }
      | some _ =>
        let newMembers := p.payloadMembers ++
          [DXILType.Scalar ScalarKind.Int 32, DXILType.Scalar ScalarKind.Int 32,
           DXILType.Scalar ScalarKind.Int 32, DXILType.Scalar ScalarKind.Int 32]
        let body2 := feederBody p.sm66 p.space regSlot dimX dimY p.payloadSize
          newMembers
        { uavSlots := uavSlots2, shaderFlags := some flags2,
          numThreads := [1, 1, 1], declaredPayloadSize := p.payloadSize + 16,
          payloadMembers := newMembers,
          funcs := updateFunc p.funcs p.entryName body2, ok := true }

/-- The slot linearization value as emitted (wrapped i32 per operation):
`x + y*dimX + z*(dimX*dimY)` computed as `Add(x, Add(Mul(y, dimX),
Mul(z, dimX*dimY)))`. -/
def linearSlot (dimX dimY x y z : Nat) : Nat :=
  u32 (x + u32 (u32 (y * dimX) + u32 (z * u32 (dimX * dimY))))

/-- Whether an instruction is a `dispatchMesh` call. -/
def isDispatch : FInstr → Bool
  | FInstr.dispatchMesh _ _ _ _ => true
  | _ => false

/-- Whether an instruction writes the capture buffer (a raw-buffer store
emitted directly by a pass or by the payload copier). -/
def isCaptureStore : FInstr → Bool
  | FInstr.rawBufferStoreTo _ _ _ _ _ => true
  | FInstr.copy (CopyInstr.rawBufStore _ _ _) => true
  | _ => false

/-- Whether an instruction reads the groupshared payload (a payload load
emitted by the payload copier). -/
def isPayloadRead : FInstr → Bool
  | FInstr.copy (CopyInstr.loadPayload _ _ _) => true
  | _ => false

/-- Whether an instruction is one of the feeder's plain payload stores. -/
def isPlainPayloadStore : FInstr → Bool
  | FInstr.storePayloadIdx _ _ _ => true
  | _ => false

/-- The GEP index chain a copier instruction addresses the payload with. -/
def copyTouches : CopyInstr → Option (List Nat)
  | CopyInstr.storePayload p _ => some p
  | CopyInstr.loadPayload p _ _ => some p
  | _ => none

/-- Concrete program with the `dx.entryPoints` metadata missing. -/
def wProgNoEntry : AmpProgram :=
  { uavSlots := [some 0], hasEntryPoints := false, entryName := "main",
    shaderFlags := none, payloadSize := 8, numThreads := [32, 1, 1],
    payloadMembers := [DXILType.Scalar ScalarKind.Int 32],
    funcs := [("main", [FInstr.ret])], sm66 := false, space := 1 }

/-- Concrete program whose entry-point function is absent. -/
def wProgNoFunc : AmpProgram :=
  { uavSlots := [], hasEntryPoints := true, entryName := "main",
    shaderFlags := some 1, payloadSize := 8, numThreads := [32, 1, 1],
    payloadMembers := [DXILType.Scalar ScalarKind.Int 32],
    funcs := [("other", [FInstr.ret])], sm66 := true, space := 1 }

/-- Concrete single-block amplification program for evaluating the passes:
one original instruction, the `dispatchMesh` call, `ret`. -/
def wProgOk : AmpProgram :=
  { uavSlots := [some 0, some 2], hasEntryPoints := true, entryName := "main",
    shaderFlags := some 0, payloadSize := 12, numThreads := [32, 1, 1],
    payloadMembers := [DXILType.Scalar ScalarKind.Float 32,
      DXILType.Array (DXILType.Scalar ScalarKind.Int 32) 2],
    funcs := [("main",
      [FInstr.orig 0,
       FInstr.dispatchMesh (FVal.origV 1) (FVal.origV 2) (FVal.origV 3)
         FVal.globalPayloadVar,
       FInstr.ret])],
    sm66 := false, space := 1 }

mutual

/-- Flattening: the copier's output is exactly the concatenation of the
per-leaf groups, and its final cursor advances by `leafBytes`. -/
theorem PayloadBufferCopy_eq_leaves (dir : PayloadCopyDir) :
    ∀ (t : DXILType) (c : Nat) (p : List Nat),
      PayloadBufferCopy dir t c p =
        ((leavesOf t p c).flatMap (leafGroup dir), c + leafBytes t)
  | DXILType.Scalar kind w, c, p => by
    cases dir <;>
      simp [PayloadBufferCopy, leavesOf, leafBytes, leafGroup, List.flatMap]
  | DXILType.Array inner n, c, p => by
    simp only [PayloadBufferCopy, leavesOf, leafBytes]
    exact copyArrayElems_eq_leaves dir inner n 0 c p
  | DXILType.Struct ms, c, p => by
    simp only [PayloadBufferCopy, leavesOf, leafBytes]
    exact copyStructMembers_eq_leaves dir ms 0 c p
  | DXILType.Unsupported, c, p => by
    simp [PayloadBufferCopy, leavesOf, leafBytes, List.flatMap]
  termination_by t _ _ => (sizeOf t, 0)

theorem copyArrayElems_eq_leaves (dir : PayloadCopyDir) (inner : DXILType) :
    ∀ (rem i c : Nat) (p : List Nat),
      copyArrayElems dir inner rem i c p =
        ((leavesArray inner rem i p c).flatMap (leafGroup dir),
         c + rem * leafBytes inner)
  | 0, i, c, p => by simp [copyArrayElems, leavesArray, List.flatMap]
  | rem + 1, i, c, p => by
    have h1 := PayloadBufferCopy_eq_leaves dir inner c (p ++ [i])
    have h2 := copyArrayElems_eq_leaves dir inner rem (i + 1)
      (c + leafBytes inner) p
    simp only [copyArrayElems, h1, h2, leavesArray, Prod.mk.injEq]
    constructor
    · simp [List.flatMap_append]
    · ring
  termination_by rem _ _ _ => (sizeOf inner + rem, 1)

theorem copyStructMembers_eq_leaves (dir : PayloadCopyDir) :
    ∀ (ms : List DXILType) (i c : Nat) (p : List Nat),
      copyStructMembers dir ms i c p =
        ((leavesStruct ms i p c).flatMap (leafGroup dir),
         c + leafBytesList ms)
  | [], i, c, p => by simp [copyStructMembers, leavesStruct, leafBytesList, List.flatMap]
  | m :: rest, i, c, p => by
    have h1 := PayloadBufferCopy_eq_leaves dir m c (p ++ [i])
    have h2 := copyStructMembers_eq_leaves dir rest (i + 1) (c + leafBytes m) p
    simp only [copyStructMembers, h1, h2, leavesStruct, leafBytesList, Prod.mk.injEq]
    constructor
    · simp [List.flatMap_append]
    · ring
  termination_by ms _ _ _ => (sizeOf ms, 1)

end

theorem writeBytes_frame (B : Buf) (off n v a : Nat)
    (h : a < off ∨ off + n ≤ a) : writeBytes B off n v a = B a := by
  unfold writeBytes
  have : ¬(off ≤ a ∧ a < off + n) := by omega
  simp [this]

theorem readBytes_congr {B1 B2 : Buf} (off : Nat) :
    ∀ n : Nat, (∀ i, i < n → B1 (off + i) = B2 (off + i)) →
      readBytes B1 off n = readBytes B2 off n := by
  intro n
  induction n generalizing off with
  | zero => intro _; rfl
  | succ n ih =>
    intro h
    unfold readBytes
    have h0 : B1 off = B2 off := by simpa using h 0 (by omega)
    have hrest : ∀ i, i < n → B1 (off + 1 + i) = B2 (off + 1 + i) := by
      intro i hi
      have := h (1 + i) (by omega)
      simpa [Nat.add_assoc] using this
    rw [h0, ih (off + 1) hrest]

theorem readBytes_writeBytes (B : Buf) (v : Nat) :
    ∀ (n off : Nat), readBytes (writeBytes B off n v) off n = v % 256 ^ n := by
  intro n
  induction n generalizing v with
  | zero => intro off; simp [readBytes, Nat.mod_one]
  | succ n ih =>
    intro off
    unfold readBytes
    have h0 : writeBytes B off (n + 1) v off = v % 256 := by
      unfold writeBytes
      simp
    have hshift : readBytes (writeBytes B off (n + 1) v) (off + 1) n =
        readBytes (writeBytes B (off + 1) n (v / 256)) (off + 1) n := by
      apply readBytes_congr
      intro i hi
      unfold writeBytes
      have hin : off ≤ off + 1 + i ∧ off + 1 + i < off + (n + 1) := by omega
      have hin2 : off + 1 ≤ off + 1 + i ∧ off + 1 + i < off + 1 + n := by omega
      simp only [hin, hin2, and_self, if_true]
      have : off + 1 + i - off = i + 1 := by omega
      have h2 : off + 1 + i - (off + 1) = i := by omega
      rw [this, h2, Nat.div_div_eq_div_mul, pow_succ]
      ring_nf
    rw [h0, hshift, ih]
    have : (256 : Nat) ^ (n + 1) = 256 * 256 ^ n := by ring
    rw [this, Nat.mod_mul]

theorem readBytes_lt (B : Buf) (hB : ∀ a, B a < 256) :
    ∀ (n off : Nat), readBytes B off n < 256 ^ n := by
  intro n
  induction n generalizing B with
  | zero => intro off; simp [readBytes]
  | succ n ih =>
    intro off
    unfold readBytes
    have h1 := hB off
    have h2 := ih B hB (off + 1)
    have : 256 ^ (n + 1) = 256 * 256 ^ n := by ring
    omega

theorem execCopy_append (base : Nat) (l1 l2 : List CopyInstr) (s : CopyState) :
    execCopy base (l1 ++ l2) s = execCopy base l2 (execCopy base l1 s) :=
  List.foldl_append ..

theorem execGroup_payloadToBuffer (base : Nat) (s : CopyState) (l : Leaf) :
    execCopy base (leafGroup PayloadCopyDir.PayloadToBuffer l) s =
      { offsetReg := base + l.off, retReg := s.retReg,
        srcReg := s.payload l.path, payload := s.payload,
        buf := writeBytes s.buf (base + l.off) (l.bitWidth / 8) (s.payload l.path) } :=
  rfl

theorem execGroup_bufferToPayload (base : Nat) (s : CopyState) (l : Leaf) :
    execCopy base (leafGroup PayloadCopyDir.BufferToPayload l) s =
      { offsetReg := base + l.off,
        retReg := readBytes s.buf (base + l.off) (l.bitWidth / 8),
        srcReg := readBytes s.buf (base + l.off) (l.bitWidth / 8),
        payload := fun q =>
          if q = l.path then readBytes s.buf (base + l.off) (l.bitWidth / 8)
          else s.payload q,
        buf := s.buf } :=
  rfl

theorem execWrite_payload (base : Nat) :
    ∀ (L : List Leaf) (s : CopyState),
      (execCopy base (L.flatMap (leafGroup PayloadCopyDir.PayloadToBuffer)) s).payload
        = s.payload := by
  intro L
  induction L with
  | nil => intro s; rfl
  | cons l ls ih =>
    intro s
    rw [List.flatMap_cons, execCopy_append, ih, execGroup_payloadToBuffer]

theorem execWrite_buf (base : Nat) :
    ∀ (L : List Leaf) (s : CopyState),
      (execCopy base (L.flatMap (leafGroup PayloadCopyDir.PayloadToBuffer)) s).buf
        = writeLeaves base s.payload L s.buf := by
  intro L
  induction L with
  | nil => intro s; rfl
  | cons l ls ih =>
    intro s
    rw [List.flatMap_cons, execCopy_append, ih, execGroup_payloadToBuffer, writeLeaves]

theorem execRead_buf (base : Nat) :
    ∀ (L : List Leaf) (s : CopyState),
      (execCopy base (L.flatMap (leafGroup PayloadCopyDir.BufferToPayload)) s).buf
        = s.buf := by
  intro L
  induction L with
  | nil => intro s; rfl
  | cons l ls ih =>
    intro s
    rw [List.flatMap_cons, execCopy_append, ih, execGroup_bufferToPayload]

theorem execRead_payload (base : Nat) :
    ∀ (L : List Leaf) (s : CopyState),
      (execCopy base (L.flatMap (leafGroup PayloadCopyDir.BufferToPayload)) s).payload
        = readLeaves base s.buf L s.payload := by
  intro L
  induction L with
  | nil => intro s; rfl
  | cons l ls ih =>
    intro s
    rw [List.flatMap_cons, execCopy_append, ih, execGroup_bufferToPayload, readLeaves]

theorem totalLeafW_append : ∀ L1 L2 : List Leaf,
    totalLeafW (L1 ++ L2) = totalLeafW L1 + totalLeafW L2 := by
  intro L1 L2
  induction L1 with
  | nil => simp [totalLeafW]
  | cons l ls ih => simp [totalLeafW, ih]; ring

theorem packedFrom_append : ∀ (L1 L2 : List Leaf) (c : Nat),
    packedFrom c L1 → packedFrom (c + totalLeafW L1) L2 →
    packedFrom c (L1 ++ L2) := by
  intro L1
  induction L1 with
  | nil => intro L2 c _ h2; simpa [totalLeafW] using h2
  | cons l ls ih =>
    intro L2 c h1 h2
    obtain ⟨hoff, hrest⟩ := h1
    refine ⟨hoff, ih L2 _ hrest ?_⟩
    have : c + l.bitWidth / 8 + totalLeafW ls = c + totalLeafW (l :: ls) := by
      simp [totalLeafW]; ring
    rw [this]
    exact h2

theorem packed_ge : ∀ (L : List Leaf) (c : Nat),
    packedFrom c L → ∀ l ∈ L, c ≤ l.off := by
  intro L
  induction L with
  | nil => intro c _ l hl; cases hl
  | cons l0 ls ih =>
    intro c h l hl
    obtain ⟨hoff, hrest⟩ := h
    cases hl with
    | head => omega
    | tail _ hmem =>
      have := ih _ hrest l hmem
      omega

mutual

/-- A traversal's leaves are tightly packed from the starting cursor, and
their total packed size is `leafBytes`. -/
theorem leavesOf_packed :
    ∀ (t : DXILType) (p : List Nat) (c : Nat),
      packedFrom c (leavesOf t p c) ∧ totalLeafW (leavesOf t p c) = leafBytes t
  | DXILType.Scalar kind w, p, c => by
    simp [leavesOf, leafBytes, packedFrom, totalLeafW]
  | DXILType.Array inner n, p, c => by
    simp only [leavesOf, leafBytes]
    exact leavesArray_packed inner n 0 p c
  | DXILType.Struct ms, p, c => by
    simp only [leavesOf, leafBytes]
    exact leavesStruct_packed ms 0 p c
  | DXILType.Unsupported, p, c => by
    simp [leavesOf, leafBytes, packedFrom, totalLeafW]
  termination_by t _ _ => (sizeOf t, 0)

theorem leavesArray_packed (inner : DXILType) :
    ∀ (rem i : Nat) (p : List Nat) (c : Nat),
      packedFrom c (leavesArray inner rem i p c) ∧
        totalLeafW (leavesArray inner rem i p c) = rem * leafBytes inner
  | 0, i, p, c => by simp [leavesArray, packedFrom, totalLeafW]
  | rem + 1, i, p, c => by
    obtain ⟨hp1, hw1⟩ := leavesOf_packed inner (p ++ [i]) c
    obtain ⟨hp2, hw2⟩ := leavesArray_packed inner rem (i + 1) p (c + leafBytes inner)
    simp only [leavesArray]
    constructor
    · apply packedFrom_append _ _ _ hp1
      rw [hw1]
      exact hp2
    · rw [totalLeafW_append, hw1, hw2]
      ring
  termination_by rem _ _ _ => (sizeOf inner + rem, 1)

theorem leavesStruct_packed :
    ∀ (ms : List DXILType) (i : Nat) (p : List Nat) (c : Nat),
      packedFrom c (leavesStruct ms i p c) ∧
        totalLeafW (leavesStruct ms i p c) = leafBytesList ms
  | [], i, p, c => by simp [leavesStruct, packedFrom, totalLeafW, leafBytesList]
  | m :: rest, i, p, c => by
    obtain ⟨hp1, hw1⟩ := leavesOf_packed m (p ++ [i]) c
    obtain ⟨hp2, hw2⟩ := leavesStruct_packed rest (i + 1) p (c + leafBytes m)
    simp only [leavesStruct, leafBytesList]
    constructor
    · apply packedFrom_append _ _ _ hp1
      rw [hw1]
      exact hp2
    · rw [totalLeafW_append, hw1, hw2]
  termination_by ms _ _ _ => (sizeOf ms, 1)

end

mutual

/-- Every leaf path extends the traversal's index-chain prefix. -/
theorem leavesOf_path_shape :
    ∀ (t : DXILType) (p : List Nat) (c : Nat),
      ∀ l ∈ leavesOf t p c, ∃ suf, l.path = p ++ suf
  | DXILType.Scalar kind w, p, c => by
    intro l hl
    simp only [leavesOf, List.mem_singleton] at hl
    exact ⟨[], by simp [hl]⟩
  | DXILType.Array inner n, p, c => by
    intro l hl
    simp only [leavesOf] at hl
    obtain ⟨j, suf, _, hpath⟩ := leavesArray_path_shape inner n 0 p c l hl
    exact ⟨j :: suf, hpath⟩
  | DXILType.Struct ms, p, c => by
    intro l hl
    simp only [leavesOf] at hl
    obtain ⟨j, suf, _, hpath⟩ := leavesStruct_path_shape ms 0 p c l hl
    exact ⟨j :: suf, hpath⟩
  | DXILType.Unsupported, p, c => by
    intro l hl
    simp [leavesOf] at hl
  termination_by t _ _ => (sizeOf t, 0)

theorem leavesArray_path_shape (inner : DXILType) :
    ∀ (rem i : Nat) (p : List Nat) (c : Nat),
      ∀ l ∈ leavesArray inner rem i p c, ∃ j suf, i ≤ j ∧ l.path = p ++ j :: suf
  | 0, i, p, c => by
    intro l hl
    simp [leavesArray] at hl
  | rem + 1, i, p, c => by
    intro l hl
    simp only [leavesArray, List.mem_append] at hl
    cases hl with
    | inl h =>
      obtain ⟨suf, hpath⟩ := leavesOf_path_shape inner (p ++ [i]) c l h
      exact ⟨i, suf, le_refl i, by simpa [List.append_assoc] using hpath⟩
    | inr h =>
      obtain ⟨j, suf, hij, hpath⟩ :=
        leavesArray_path_shape inner rem (i + 1) p (c + leafBytes inner) l h
      exact ⟨j, suf, by omega, hpath⟩
  termination_by rem _ _ _ => (sizeOf inner + rem, 1)

theorem leavesStruct_path_shape :
    ∀ (ms : List DXILType) (i : Nat) (p : List Nat) (c : Nat),
      ∀ l ∈ leavesStruct ms i p c, ∃ j suf, i ≤ j ∧ l.path = p ++ j :: suf
  | [], i, p, c => by
    intro l hl
    simp [leavesStruct] at hl
  | m :: rest, i, p, c => by
    intro l hl
    simp only [leavesStruct, List.mem_append] at hl
    cases hl with
    | inl h =>
      obtain ⟨suf, hpath⟩ := leavesOf_path_shape m (p ++ [i]) c l h
      exact ⟨i, suf, le_refl i, by simpa [List.append_assoc] using hpath⟩
    | inr h =>
      obtain ⟨j, suf, hij, hpath⟩ :=
        leavesStruct_path_shape rest (i + 1) p (c + leafBytes m) l h
      exact ⟨j, suf, by omega, hpath⟩
  termination_by ms _ _ _ => (sizeOf ms, 1)

end

theorem path_head_determined (p : List Nat) (i j : Nat) (s1 s2 : List Nat)
    (h : p ++ i :: s1 = p ++ j :: s2) : i = j := by
  have := List.append_cancel_left h
  injection this

mutual

/-- Distinct leaves of one traversal have distinct GEP index chains. -/
theorem leavesOf_paths_nodup :
    ∀ (t : DXILType) (p : List Nat) (c : Nat),
      ((leavesOf t p c).map Leaf.path).Nodup
  | DXILType.Scalar kind w, p, c => by simp [leavesOf]
  | DXILType.Array inner n, p, c => by
    simp only [leavesOf]
    exact leavesArray_paths_nodup inner n 0 p c
  | DXILType.Struct ms, p, c => by
    simp only [leavesOf]
    exact leavesStruct_paths_nodup ms 0 p c
  | DXILType.Unsupported, p, c => by simp [leavesOf]
  termination_by t _ _ => (sizeOf t, 0)

theorem leavesArray_paths_nodup (inner : DXILType) :
    ∀ (rem i : Nat) (p : List Nat) (c : Nat),
      ((leavesArray inner rem i p c).map Leaf.path).Nodup
  | 0, i, p, c => by simp [leavesArray]
  | rem + 1, i, p, c => by
    simp only [leavesArray, List.map_append]
    apply List.Nodup.append
    · exact leavesOf_paths_nodup inner (p ++ [i]) c
    · exact leavesArray_paths_nodup inner rem (i + 1) p (c + leafBytes inner)
    · intro a ha hb
      obtain ⟨l1, hl1, rfl⟩ := List.mem_map.mp ha
      obtain ⟨l2, hl2, heq⟩ := List.mem_map.mp hb
      obtain ⟨s1, hs1⟩ := leavesOf_path_shape inner (p ++ [i]) c l1 hl1
      obtain ⟨j, s2, hij, hs2⟩ :=
        leavesArray_path_shape inner rem (i + 1) p (c + leafBytes inner) l2 hl2
      rw [heq, hs1, List.append_assoc] at hs2
      simp only [List.cons_append, List.nil_append] at hs2
      have := path_head_determined p i j s1 s2 hs2
      omega
  termination_by rem _ _ _ => (sizeOf inner + rem, 1)

theorem leavesStruct_paths_nodup :
    ∀ (ms : List DXILType) (i : Nat) (p : List Nat) (c : Nat),
      ((leavesStruct ms i p c).map Leaf.path).Nodup
  | [], i, p, c => by simp [leavesStruct]
  | m :: rest, i, p, c => by
    simp only [leavesStruct, List.map_append]
    apply List.Nodup.append
    · exact leavesOf_paths_nodup m (p ++ [i]) c
    · exact leavesStruct_paths_nodup rest (i + 1) p (c + leafBytes m)
    · intro a ha hb
      obtain ⟨l1, hl1, rfl⟩ := List.mem_map.mp ha
      obtain ⟨l2, hl2, heq⟩ := List.mem_map.mp hb
      obtain ⟨s1, hs1⟩ := leavesOf_path_shape m (p ++ [i]) c l1 hl1
      obtain ⟨j, s2, hij, hs2⟩ :=
        leavesStruct_path_shape rest (i + 1) p (c + leafBytes m) l2 hl2
      rw [heq, hs1, List.append_assoc] at hs2
      simp only [List.cons_append, List.nil_append] at hs2
      have := path_head_determined p i j s1 s2 hs2
      omega
  termination_by ms _ _ _ => (sizeOf ms, 1)

end

theorem writeLeaves_frame (base : Nat) (P : List Nat → Nat) :
    ∀ (L : List Leaf) (B : Buf) (a : Nat),
      (∀ l ∈ L, a < base + l.off ∨ base + l.off + l.bitWidth / 8 ≤ a) →
      writeLeaves base P L B a = B a := by
  intro L
  induction L with
  | nil => intro B a _; rfl
  | cons l0 ls ih =>
    intro B a h
    unfold writeLeaves
    rw [ih _ a (fun l hl => h l (List.mem_cons_of_mem l0 hl))]
    exact writeBytes_frame _ _ _ _ _ (h l0 (List.mem_cons_self l0 ls))

theorem writeLeaves_read_leaf (base : Nat) (P : List Nat → Nat) :
    ∀ (L : List Leaf) (c : Nat) (B : Buf),
      packedFrom c L →
      ∀ l ∈ L,
        readBytes (writeLeaves base P L B) (base + l.off) (l.bitWidth / 8) =
          P l.path % 256 ^ (l.bitWidth / 8) := by
  intro L
  induction L with
  | nil => intro c B _ l hl; cases hl
  | cons l0 ls ih =>
    intro c B hpacked l hl
    obtain ⟨hoff, hrest⟩ := hpacked
    cases hl with
    | head =>
      unfold writeLeaves
      have hframe : ∀ i, i < l0.bitWidth / 8 →
          writeLeaves base P ls
              (writeBytes B (base + l0.off) (l0.bitWidth / 8) (P l0.path))
              (base + l0.off + i) =
            writeBytes B (base + l0.off) (l0.bitWidth / 8) (P l0.path)
              (base + l0.off + i) := by
        intro i hi
        apply writeLeaves_frame
        intro l' hl'
        have := packed_ge ls (c + l0.bitWidth / 8) hrest l' hl'
        left
        omega
      rw [readBytes_congr _ _ hframe, readBytes_writeBytes]
    | tail _ hmem =>
      unfold writeLeaves
      exact ih (c + l0.bitWidth / 8) _ hrest l hmem

theorem readLeaves_unchanged (base : Nat) (B : Buf) :
    ∀ (L : List Leaf) (P : List Nat → Nat) (q : List Nat),
      q ∉ L.map Leaf.path → readLeaves base B L P q = P q := by
  intro L
  induction L with
  | nil => intro P q _; rfl
  | cons l0 ls ih =>
    intro P q hq
    unfold readLeaves
    rw [ih]
    · have : q ≠ l0.path := by
        intro h
        exact hq (by simp [h])
      simp [this]
    · intro h
      exact hq (by simp [h])

theorem readLeaves_at_leaf (base : Nat) (B : Buf) :
    ∀ (L : List Leaf) (P : List Nat → Nat),
      (L.map Leaf.path).Nodup →
      ∀ l ∈ L,
        readLeaves base B L P l.path =
          readBytes B (base + l.off) (l.bitWidth / 8) := by
  intro L
  induction L with
  | nil => intro P _ l hl; cases hl
  | cons l0 ls ih =>
    intro P hnd l hl
    rw [List.map_cons, List.nodup_cons] at hnd
    cases hl with
    | head =>
      unfold readLeaves
      rw [readLeaves_unchanged _ _ _ _ _ hnd.1]
      simp
    | tail _ hmem =>
      unfold readLeaves
      exact ih _ hnd.2 l hmem

mutual

theorem leavesOf_width :
    ∀ (t : DXILType) (p : List Nat) (c : Nat), wellFormedTy t = true →
      ∀ l ∈ leavesOf t p c,
        l.bitWidth = 8 ∨ l.bitWidth = 16 ∨ l.bitWidth = 32 ∨ l.bitWidth = 64
  | DXILType.Scalar kind w, p, c => by
    intro hwf l hl
    simp only [leavesOf, List.mem_singleton] at hl
    simp only [wellFormedTy, Bool.or_eq_true, decide_eq_true_eq] at hwf
    subst hl
    simp only [Leaf.bitWidth]
    tauto
  | DXILType.Array inner n, p, c => by
    intro hwf l hl
    simp only [leavesOf] at hl
    exact leavesArray_width inner n 0 p c (by simpa [wellFormedTy] using hwf) l hl
  | DXILType.Struct ms, p, c => by
    intro hwf l hl
    simp only [leavesOf] at hl
    exact leavesStruct_width ms 0 p c (by simpa [wellFormedTy] using hwf) l hl
  | DXILType.Unsupported, p, c => by
    intro hwf
    simp [wellFormedTy] at hwf
  termination_by t _ _ => (sizeOf t, 0)

theorem leavesArray_width (inner : DXILType) :
    ∀ (rem i : Nat) (p : List Nat) (c : Nat), wellFormedTy inner = true →
      ∀ l ∈ leavesArray inner rem i p c,
        l.bitWidth = 8 ∨ l.bitWidth = 16 ∨ l.bitWidth = 32 ∨ l.bitWidth = 64
  | 0, i, p, c => by
    intro _ l hl
    simp [leavesArray] at hl
  | rem + 1, i, p, c => by
    intro hwf l hl
    simp only [leavesArray, List.mem_append] at hl
    cases hl with
    | inl h => exact leavesOf_width inner (p ++ [i]) c hwf l h
    | inr h => exact leavesArray_width inner rem (i + 1) p (c + leafBytes inner) hwf l h
  termination_by rem _ _ _ => (sizeOf inner + rem, 1)

theorem leavesStruct_width :
    ∀ (ms : List DXILType) (i : Nat) (p : List Nat) (c : Nat),
      wellFormedTyList ms = true →
      ∀ l ∈ leavesStruct ms i p c,
        l.bitWidth = 8 ∨ l.bitWidth = 16 ∨ l.bitWidth = 32 ∨ l.bitWidth = 64
  | [], i, p, c => by
    intro _ l hl
    simp [leavesStruct] at hl
  | m :: rest, i, p, c => by
    intro hwf l hl
    simp only [wellFormedTyList, Bool.and_eq_true] at hwf
    simp only [leavesStruct, List.mem_append] at hl
    cases hl with
    | inl h => exact leavesOf_width m (p ++ [i]) c hwf.1 l h
    | inr h => exact leavesStruct_width rest (i + 1) p (c + leafBytes m) hwf.2 l h
  termination_by ms _ _ _ => (sizeOf ms, 1)

end

theorem pow256_div8 (w : Nat)
    (hw : w = 8 ∨ w = 16 ∨ w = 32 ∨ w = 64) :
    (256 : Nat) ^ (w / 8) = 2 ^ w := by
  rcases hw with rfl | rfl | rfl | rfl <;> decide

theorem totalLeafW_eq_sum (L : List Leaf) :
    totalLeafW L = (L.map (fun l => l.bitWidth / 8)).sum := by
  induction L with
  | nil => rfl
  | cons l ls ih => simp [totalLeafW, ih]

/-- C1: For every payload type built only from scalar, array, and aggregate
members, running `PayloadBufferCopy` in payload-to-buffer direction and then
in buffer-to-payload direction (or vice versa) at the same base offset and
the same starting cursor reproduces every scalar leaf's original value
bit-for-bit, for every supported scalar kind and bit width (8, 16, 32, 64
bit integers and floats): after payload-then-buffer-then-payload every leaf
of the payload holds its original value, and after buffer-then-payload-then-
buffer every leaf's byte range of the buffer holds its original bytes. -/
theorem payload_copier_roundtrip
    (t : DXILType) (p0 : List Nat) (c base : Nat)
    (P : List Nat → Nat) (B : Buf)
    (hwf : wellFormedTy t = true)
    (hP : ∀ l ∈ leavesOf t p0 c, P l.path < 2 ^ l.bitWidth)
    (hB : ∀ a, B a < 256) :
    (∀ l ∈ leavesOf t p0 c,
      (execCopy base (PayloadBufferCopy PayloadCopyDir.BufferToPayload t c p0).1
          (execCopy base (PayloadBufferCopy PayloadCopyDir.PayloadToBuffer t c p0).1
            ⟨0, 0, 0, P, B⟩)).payload l.path = P l.path) ∧
    (∀ l ∈ leavesOf t p0 c,
      readBytes
        (execCopy base (PayloadBufferCopy PayloadCopyDir.PayloadToBuffer t c p0).1
            (execCopy base (PayloadBufferCopy PayloadCopyDir.BufferToPayload t c p0).1
              ⟨0, 0, 0, P, B⟩)).buf
        (base + l.off) (l.bitWidth / 8) =
      readBytes B (base + l.off) (l.bitWidth / 8)) := by
  rw [PayloadBufferCopy_eq_leaves, PayloadBufferCopy_eq_leaves]
  have hpacked := (leavesOf_packed t p0 c).1
  have hnodup := leavesOf_paths_nodup t p0 c
  have hpow : ∀ l ∈ leavesOf t p0 c, (256 : Nat) ^ (l.bitWidth / 8) = 2 ^ l.bitWidth :=
    fun l hl => pow256_div8 l.bitWidth (leavesOf_width t p0 c hwf l hl)
  constructor
  · intro l hl
    rw [execRead_payload, execWrite_payload, execWrite_buf]
    rw [readLeaves_at_leaf base _ _ _ hnodup l hl]
    rw [writeLeaves_read_leaf base P _ c _ hpacked l hl]
    rw [hpow l hl]
    exact Nat.mod_eq_of_lt (hP l hl)
  · intro l hl
    rw [execWrite_buf, execRead_payload, execRead_buf]
    rw [writeLeaves_read_leaf base _ _ c _ hpacked l hl]
    rw [readLeaves_at_leaf base _ _ _ hnodup l hl]
    exact Nat.mod_eq_of_lt (readBytes_lt B hB (l.bitWidth / 8) (base + l.off))

/-- C5: One run of `PayloadBufferCopy` advances the byte cursor
(`uavByteOffset`) by exactly the sum of `bitWidth/8` over all scalar leaves
in depth-first traversal order — independent of any in-memory alignment
padding, which never enters the cursor computation — and a zero-length array
contributes no emitted instructions and no cursor advance. -/
theorem payload_copier_cursor_advance
    (dir : PayloadCopyDir) (t inner : DXILType) (c c2 : Nat) (p p2 : List Nat) :
    (PayloadBufferCopy dir t c p).2 =
        c + ((leavesOf t p c).map (fun l => l.bitWidth / 8)).sum ∧
    PayloadBufferCopy dir (DXILType.Array inner 0) c2 p2 = ([], c2) := by
  constructor
  · rw [PayloadBufferCopy_eq_leaves]
    rw [← totalLeafW_eq_sum, (leavesOf_packed t p c).2]
  · simp [PayloadBufferCopy, copyArrayElems]

theorem wTy1_leaves :
    leavesOf wTy1 [] 16 =
      [⟨[0], ScalarKind.Float, 32, 16⟩,
       ⟨[1, 0], ScalarKind.Int, 32, 20⟩,
       ⟨[1, 1], ScalarKind.Int, 32, 24⟩] := by
  simp [wTy1, leavesOf, leavesStruct, leavesArray, leafBytes, leafBytesList]

/-- Witness for C1: at the concrete example type, payload and buffer, the
hypotheses hold and the double copy reproduces the array leaf `b[0]`. -/
theorem payload_copier_roundtrip_witness :
    wellFormedTy wTy1 = true ∧
    (execCopy 0 (PayloadBufferCopy PayloadCopyDir.BufferToPayload wTy1 16 []).1
        (execCopy 0 (PayloadBufferCopy PayloadCopyDir.PayloadToBuffer wTy1 16 []).1
          ⟨0, 0, 0, wP1, wB1⟩)).payload [1, 0] = 11 := by
  have hwf : wellFormedTy wTy1 = true := by
    simp [wTy1, wellFormedTy, wellFormedTyList]
  have hP : ∀ l ∈ leavesOf wTy1 [] 16, wP1 l.path < 2 ^ l.bitWidth := by
    rw [wTy1_leaves]
    decide
  have hB : ∀ a, wB1 a < 256 := by
    intro a
    show (0 : Nat) < 256
    decide
  refine ⟨hwf, ?_⟩
  have h := (payload_copier_roundtrip wTy1 [] 16 0 wP1 wB1 hwf hP hB).1
    ⟨[1, 0], ScalarKind.Int, 32, 20⟩ (by rw [wTy1_leaves]; decide)
  exact h

theorem computeRegSlot_foldl_acc (l : List (Option Nat)) :
    ∀ acc : Nat,
      l.foldl
        (fun regSlot slot =>
          match slot with
          | none => regSlot
          | some id => max (id + 1) regSlot) acc = max acc (computeRegSlot l) := by
  unfold computeRegSlot
  induction l with
  | nil => intro acc; simp
  | cons x l ih =>
    intro acc
    cases x with
    | none => simpa using ih acc
    | some id =>
      simp only [List.foldl_cons]
      rw [ih (max (id + 1) acc), ih (max (id + 1) 0)]
      simp only [Nat.max_def]
      split_ifs <;> omega

theorem computeRegSlot_cons_none (l : List (Option Nat)) :
    computeRegSlot (none :: l) = computeRegSlot l := by
  simp [computeRegSlot]

theorem computeRegSlot_cons_some (id : Nat) (l : List (Option Nat)) :
    computeRegSlot (some id :: l) = max (id + 1) (computeRegSlot l) := by
  simp only [computeRegSlot, List.foldl_cons]
  rw [computeRegSlot_foldl_acc]
  simp [computeRegSlot]

theorem computeRegSlot_all_none (l : List (Option Nat))
    (h : ∀ x ∈ l, x = none) : computeRegSlot l = 0 := by
  induction l with
  | nil => rfl
  | cons x l ih =>
    have hx := h x (List.mem_cons_self x l)
    subst hx
    rw [computeRegSlot_cons_none]
    exact ih (fun y hy => h y (List.mem_cons_of_mem _ hy))

theorem computeRegSlot_gt (l : List (Option Nat)) :
    ∀ id : Nat, some id ∈ l → id < computeRegSlot l := by
  induction l with
  | nil => intro id h; cases h
  | cons x l ih =>
    intro id h
    rcases List.mem_cons.mp h with heq | hmem
    · rw [← heq, computeRegSlot_cons_some]
      exact lt_of_lt_of_le (Nat.lt_succ_self id) (le_max_left _ _)
    · cases x with
      | none => rw [computeRegSlot_cons_none]; exact ih id hmem
      | some v =>
        rw [computeRegSlot_cons_some]
        exact lt_of_lt_of_le (ih id hmem) (le_max_right _ _)

theorem computeRegSlot_is_succ_max (l : List (Option Nat))
    (h : ∃ id : Nat, some id ∈ l) :
    ∃ id : Nat, some id ∈ l ∧ computeRegSlot l = id + 1 := by
  induction l with
  | nil => obtain ⟨id, hid⟩ := h; cases hid
  | cons x l ih =>
    cases x with
    | none =>
      rw [computeRegSlot_cons_none]
      obtain ⟨id, hid⟩ := h
      rcases List.mem_cons.mp hid with heq | hmem
      · cases heq
      · obtain ⟨id2, hmem2, heq2⟩ := ih ⟨id, hmem⟩
        exact ⟨id2, List.mem_cons_of_mem _ hmem2, heq2⟩
    | some hd =>
      rw [computeRegSlot_cons_some]
      by_cases hrest : ∃ id : Nat, some id ∈ l
      · obtain ⟨id2, hmem2, heq2⟩ := ih hrest
        rcases Nat.le_total (hd + 1) (computeRegSlot l) with hle | hle
        · refine ⟨id2, List.mem_cons_of_mem _ hmem2, ?_⟩
          rw [max_eq_right hle, heq2]
        · refine ⟨hd, List.mem_cons_self _ _, ?_⟩
          rw [max_eq_left hle]
      · have hall : ∀ x ∈ l, x = none := by
          intro x hx
          cases x with
          | none => rfl
          | some v => exact absurd ⟨v, hx⟩ hrest
        rw [computeRegSlot_all_none l hall]
        exact ⟨hd, List.mem_cons_self _ _, by omega⟩

/-- C7: when registering the new capture resource, the next slot id is
`max(existing constant ids) + 1` (it is an observed id plus one and is
greater than every observed id), `0` when no constant id exists; gaps are
not reused (ids `{0, 2}` yield `3`); non-constant ids (`none`) and
duplicates are tolerated, the scan still taking the maximum observed
id plus one. -/
theorem computeRegSlot_spec :
    (∀ l : List (Option Nat), (∀ x ∈ l, x = none) → computeRegSlot l = 0) ∧
    (∀ (l : List (Option Nat)) (id : Nat), some id ∈ l → id < computeRegSlot l) ∧
    (∀ l : List (Option Nat), (∃ id : Nat, some id ∈ l) →
      ∃ id : Nat, some id ∈ l ∧ computeRegSlot l = id + 1) ∧
    computeRegSlot [some 0, some 2] = 3 ∧
    computeRegSlot [some 0, none, some 0, some 2] = 3 :=
  ⟨computeRegSlot_all_none, computeRegSlot_gt, computeRegSlot_is_succ_max,
   by decide, by decide⟩

/-- Witness for C7: the quantified conjuncts instantiated at a concrete
irregular UAV table (a gap, a duplicate and a non-constant id). -/
theorem computeRegSlot_spec_witness :
    computeRegSlot [none, none] = 0 ∧
    (2 : Nat) < computeRegSlot [some 0, none, some 2] ∧
    computeRegSlot [some 5] = 5 + 1 := by
  refine ⟨computeRegSlot_spec.1 [none, none] ?_, ?_, ?_⟩
  · decide
  · exact computeRegSlot_spec.2.1 [some 0, none, some 2] 2 (by decide)
  · obtain ⟨id, hmem, heq⟩ := computeRegSlot_spec.2.2.1 [some 5] ⟨5, by decide⟩
    have : id = 5 := by
      cases hmem with
      | head => rfl
      | tail _ h => cases h
    rw [heq, this]

/-- C9: the Payload-Store Injector adds exactly the two flag bits 0x10
(bit 4) and 0x10000 (bit 16) to the entry point's shader-flags value and
clears none: the result is `v ||| 0x10 ||| 0x10000`, every bit set in the
input stays set, bits 4 and 16 are set in the result, and every other bit
of the result equals the input's. -/
theorem patchShaderFlagsInjector_spec (v : Nat) :
    patchShaderFlagsInjector v = v ||| 0x10 ||| 0x10000 ∧
    (∀ bit : Nat, Nat.testBit v bit → Nat.testBit (patchShaderFlagsInjector v) bit) ∧
    Nat.testBit (patchShaderFlagsInjector v) 4 ∧
    Nat.testBit (patchShaderFlagsInjector v) 16 ∧
    (∀ bit : Nat, bit ≠ 4 → bit ≠ 16 →
      Nat.testBit (patchShaderFlagsInjector v) bit = Nat.testBit v bit) := by
  have h16 : (0x10 : Nat) = 2 ^ 4 := by norm_num
  have h65536 : (0x10000 : Nat) = 2 ^ 16 := by norm_num
  refine ⟨rfl, ?_, ?_, ?_, ?_⟩
  · intro bit hbit
    simp [patchShaderFlagsInjector, Nat.testBit_or, hbit]
  · simp only [patchShaderFlagsInjector, Nat.testBit_or, Bool.or_eq_true]
    exact Or.inl (Or.inr (by decide))
  · simp only [patchShaderFlagsInjector, Nat.testBit_or, Bool.or_eq_true]
    exact Or.inr (by decide)
  · intro bit h4 h16b
    simp only [patchShaderFlagsInjector, Nat.testBit_or]
    rw [h16, h65536, Nat.testBit_two_pow_of_ne (Ne.symm h4),
      Nat.testBit_two_pow_of_ne (Ne.symm h16b)]
    simp

/-- Witness for C9: the per-bit conjuncts instantiated at the concrete flags
value 0x80001 (bits 0 and 19 set). -/
theorem patchShaderFlagsInjector_spec_witness :
    Nat.testBit (patchShaderFlagsInjector 0x80001) 0 ∧
    Nat.testBit (patchShaderFlagsInjector 0x80001) 4 ∧
    Nat.testBit (patchShaderFlagsInjector 0x80001) 19 = Nat.testBit 0x80001 19 :=
  ⟨(patchShaderFlagsInjector_spec 0x80001).2.1 0 (by decide),
   (patchShaderFlagsInjector_spec 0x80001).2.2.1,
   (patchShaderFlagsInjector_spec 0x80001).2.2.2.2 19 (by decide) (by decide)⟩

theorem u32_eq_of_lt {n : Nat} (h : n < 4294967296) : u32 n = n :=
  Nat.mod_eq_of_lt h

theorem u32_add_left (a b : Nat) : u32 (u32 a + b) = u32 (a + b) := by
  unfold u32
  exact Nat.mod_add_mod a 4294967296 b

theorem u32_add_right (a b : Nat) : u32 (a + u32 b) = u32 (a + b) := by
  unfold u32
  exact Nat.add_mod_mod a b 4294967296

theorem u32_mul_left (a b : Nat) : u32 (u32 a * b) = u32 (a * b) := by
  unfold u32
  exact Nat.mod_mul_mod

theorem u32_mul_right (a b : Nat) : u32 (a * u32 b) = u32 (a * b) := by
  unfold u32
  exact Nat.mul_mod_mod a b 4294967296

theorem u32_u32 (a : Nat) : u32 (u32 a) = u32 a := by
  unfold u32
  exact Nat.mod_mod a 4294967296

theorem evalFVal_injFlatIndex (env : GpuEnv) (dimX dimY : Nat) :
    evalFVal env (injFlatIndex dimX dimY) =
      linearSlot dimX dimY (env.groupId 0) (env.groupId 1) (env.groupId 2) := by
  simp only [injFlatIndex, injGroupYZAdd, injGroupYMul, injGroupZMul, injDimXY,
    evalFVal, linearSlot, u32_add_left, u32_add_right, u32_mul_left,
    u32_mul_right, u32_u32]

theorem evalFVal_fdFlatIndex (env : GpuEnv) (dimX dimY : Nat) :
    evalFVal env (fdFlatIndex dimX dimY) =
      linearSlot dimX dimY (env.groupId 0) (env.groupId 1) (env.groupId 2) := by
  simp only [fdFlatIndex, fdGroupYZAdd, fdGroupYMul, fdGroupZMul,
    evalFVal, linearSlot, u32_add_left, u32_add_right, u32_mul_left,
    u32_mul_right, u32_u32]

theorem mixed_lt {a A b B : Nat} (ha : a < A) (hb : b < B) :
    a + A * b < A * B := by
  have h1 : a + A * b < A * (b + 1) := by
    have : A * (b + 1) = A * b + A := by ring
    omega
  have h2 : A * (b + 1) ≤ A * B := Nat.mul_le_mul_left A hb
  omega

theorem slotFormula_lt {dimX dimY dimZ x y z : Nat}
    (hx : x < dimX) (hy : y < dimY) (hz : z < dimZ) :
    x + y * dimX + z * (dimX * dimY) < dimX * dimY * dimZ := by
  have h1 : y + dimY * z < dimY * dimZ := mixed_lt hy hz
  have h2 : x + dimX * (y + dimY * z) < dimX * (dimY * dimZ) := mixed_lt hx h1
  have e1 : x + y * dimX + z * (dimX * dimY) = x + dimX * (y + dimY * z) := by
    ring
  have e2 : dimX * (dimY * dimZ) = dimX * dimY * dimZ := by ring
  omega

theorem linearSlot_eq_of_lt {dimX dimY dimZ x y z : Nat}
    (h : dimX * dimY * dimZ ≤ 4294967296)
    (hx : x < dimX) (hy : y < dimY) (hz : z < dimZ) :
    linearSlot dimX dimY x y z = x + y * dimX + z * (dimX * dimY) := by
  have htot := slotFormula_lt hx hy hz
  have hA : y * dimX < 4294967296 := by omega
  unfold linearSlot
  rcases Nat.eq_zero_or_pos z with hz0 | hz1
  · subst hz0
    have h0 : (0 : Nat) * u32 (dimX * dimY) = 0 := Nat.zero_mul _
    rw [h0]
    have h1 : u32 0 = 0 := Nat.zero_mod _
    rw [h1, Nat.add_zero, u32_u32, u32_eq_of_lt hA]
    rw [u32_eq_of_lt (by omega : x + y * dimX < 4294967296)]
    omega
  · have hdz2 : 2 ≤ dimZ := by omega
    have hXY : dimX * dimY * 2 ≤ dimX * dimY * dimZ := Nat.mul_le_mul_left _ hdz2
    have hXYlt : dimX * dimY < 4294967296 := by omega
    rw [u32_eq_of_lt hXYlt, u32_eq_of_lt hA]
    have hzB : z * (dimX * dimY) < 4294967296 := by omega
    rw [u32_eq_of_lt hzB]
    have hAB : y * dimX + z * (dimX * dimY) < 4294967296 := by omega
    rw [u32_eq_of_lt hAB, u32_eq_of_lt (by omega :
        x + (y * dimX + z * (dimX * dimY)) < 4294967296)]
    omega

theorem slotFormula_decode {dimX dimY x y z : Nat}
    (hx : x < dimX) (hy : y < dimY) :
    (x + y * dimX + z * (dimX * dimY)) % dimX = x ∧
    (x + y * dimX + z * (dimX * dimY)) / dimX % dimY = y ∧
    (x + y * dimX + z * (dimX * dimY)) / (dimX * dimY) = z := by
  have hdx : 0 < dimX := by omega
  have hdy : 0 < dimY := by omega
  have e1 : x + y * dimX + z * (dimX * dimY) = x + dimX * (y + dimY * z) := by
    ring
  have e2 : x + y * dimX + z * (dimX * dimY) =
      x + dimX * y + dimX * dimY * z := by ring
  refine ⟨?_, ?_, ?_⟩
  · rw [e1, Nat.add_mul_mod_self_left, Nat.mod_eq_of_lt hx]
  · rw [e1, Nat.add_mul_div_left _ _ hdx, Nat.div_eq_of_lt hx, Nat.zero_add,
      Nat.add_mul_mod_self_left, Nat.mod_eq_of_lt hy]
  · rw [e2, Nat.add_mul_div_left _ _ (Nat.mul_pos hdx hdy),
      Nat.div_eq_of_lt (mixed_lt hx hy), Nat.zero_add]

theorem slotFormula_encode_decode {dimX dimY dimZ n : Nat}
    (hn : n < dimX * dimY * dimZ) :
    n % dimX < dimX ∧ n / dimX % dimY < dimY ∧ n / (dimX * dimY) < dimZ ∧
    n % dimX + (n / dimX % dimY) * dimX + (n / (dimX * dimY)) * (dimX * dimY)
      = n := by
  have hdx : 0 < dimX := by
    rcases Nat.eq_zero_or_pos dimX with h | h
    · subst h; simp at hn
    · exact h
  have hdy : 0 < dimY := by
    rcases Nat.eq_zero_or_pos dimY with h | h
    · subst h; simp at hn
    · exact h
  have hdxy : 0 < dimX * dimY := Nat.mul_pos hdx hdy
  refine ⟨Nat.mod_lt _ hdx, Nat.mod_lt _ hdy, ?_, ?_⟩
  · rw [Nat.div_lt_iff_lt_mul hdxy]
    calc n < dimX * dimY * dimZ := hn
      _ = dimZ * (dimX * dimY) := by ring
  · have key : n / (dimX * dimY) = n / dimX / dimY := by
      rw [Nat.div_div_eq_div_mul]
    rw [key]
    have h1 : n / dimX % dimY + dimY * (n / dimX / dimY) = n / dimX :=
      Nat.mod_add_div _ _
    have h2 : n % dimX + dimX * (n / dimX) = n := Nat.mod_add_div _ _
    calc n % dimX + (n / dimX % dimY) * dimX + (n / dimX / dimY) * (dimX * dimY)
        = n % dimX + dimX * (n / dimX % dimY + dimY * (n / dimX / dimY)) := by
          ring
      _ = n % dimX + dimX * (n / dimX) := by rw [h1]
      _ = n := h2

/-- C6: the slot linearization `x + y*dimX + z*dimX*dimY`, as emitted by
both passes (the wrapped-i32 value `linearSlot`, which both the injector's
and the feeder's emitted instruction DAGs evaluate to), is a bijection from
the workgroup-id set `{(x,y,z) | x<dimX, y<dimY, z<dimZ}` onto
`{0, …, dimX*dimY*dimZ - 1}`, whenever the slot count fits the 32-bit
index arithmetic. -/
theorem linearSlot_bijection (dimX dimY dimZ : Nat)
    (h : dimX * dimY * dimZ ≤ 4294967296) :
    Set.BijOn (fun t : Nat × Nat × Nat => linearSlot dimX dimY t.1 t.2.1 t.2.2)
      {t : Nat × Nat × Nat | t.1 < dimX ∧ t.2.1 < dimY ∧ t.2.2 < dimZ}
      (Set.Iio (dimX * dimY * dimZ)) ∧
    (∀ env : GpuEnv, evalFVal env (injFlatIndex dimX dimY) =
      linearSlot dimX dimY (env.groupId 0) (env.groupId 1) (env.groupId 2)) ∧
    (∀ env : GpuEnv, evalFVal env (fdFlatIndex dimX dimY) =
      linearSlot dimX dimY (env.groupId 0) (env.groupId 1) (env.groupId 2)) := by
  refine ⟨⟨?_, ?_, ?_⟩, fun env => evalFVal_injFlatIndex env dimX dimY,
    fun env => evalFVal_fdFlatIndex env dimX dimY⟩
  · rintro ⟨x, y, z⟩ ⟨hx, hy, hz⟩
    simp only [Set.mem_Iio]
    rw [linearSlot_eq_of_lt h hx hy hz]
    exact slotFormula_lt hx hy hz
  · rintro ⟨x1, y1, z1⟩ ⟨hx1, hy1, hz1⟩ ⟨x2, y2, z2⟩ ⟨hx2, hy2, hz2⟩ heq
    dsimp only at hx1 hy1 hz1 hx2 hy2 hz2 heq
    rw [linearSlot_eq_of_lt h hx1 hy1 hz1, linearSlot_eq_of_lt h hx2 hy2 hz2]
      at heq
    obtain ⟨d1x, d1y, d1z⟩ := slotFormula_decode hx1 hy1 (z := z1)
    obtain ⟨d2x, d2y, d2z⟩ := slotFormula_decode hx2 hy2 (z := z2)
    have ex : x1 = x2 := by rw [← d1x, ← d2x, heq]
    have ey : y1 = y2 := by rw [← d1y, ← d2y, heq]
    have ez : z1 = z2 := by rw [← d1z, ← d2z, heq]
    simp [ex, ey, ez]
  · rintro n hn
    simp only [Set.mem_Iio] at hn
    obtain ⟨hxlt, hylt, hzlt, henc⟩ := slotFormula_encode_decode hn
    refine ⟨(n % dimX, n / dimX % dimY, n / (dimX * dimY)), ⟨hxlt, hylt, hzlt⟩, ?_⟩
    simp only
    rw [linearSlot_eq_of_lt h hxlt hylt hzlt, henc]

/-- Witness for C6: the bijection and both evaluation links at the concrete
dispatch size 3 by 4 by 5. -/
theorem linearSlot_bijection_witness :
    (3 : Nat) * 4 * 5 ≤ 4294967296 ∧
    Set.BijOn (fun t : Nat × Nat × Nat => linearSlot 3 4 t.1 t.2.1 t.2.2)
      {t : Nat × Nat × Nat | t.1 < 3 ∧ t.2.1 < 4 ∧ t.2.2 < 5}
      (Set.Iio (3 * 4 * 5)) :=
  ⟨by norm_num, (linearSlot_bijection 3 4 5 (by norm_num)).1⟩

/-- C8: when a structural precondition fails — the `dx.entryPoints`
metadata list is missing, or the entry-point function named there is not
found — `AddDXILAmpShaderPayloadStores` logs a diagnostic and returns
early: the pass reports failure and the instruction stream of every
function is left exactly as it was (no instructions are inserted anywhere),
rather than crashing. -/
theorem injector_failure_no_instrumentation (p : AmpProgram) (dimX dimY : Nat) :
    (p.hasEntryPoints = false →
      (AddDXILAmpShaderPayloadStores p dimX dimY).funcs = p.funcs ∧
      (AddDXILAmpShaderPayloadStores p dimX dimY).ok = false) ∧
    (p.hasEntryPoints = true → p.funcs.lookup p.entryName = none →
      (AddDXILAmpShaderPayloadStores p dimX dimY).funcs = p.funcs ∧
      (AddDXILAmpShaderPayloadStores p dimX dimY).ok = false) := by
  constructor
  · intro h
    simp [AddDXILAmpShaderPayloadStores, h]
  · intro h hl
    simp [AddDXILAmpShaderPayloadStores, h, hl]

/-- Witness for C8: both failure modes at concrete programs leave the
function bodies untouched. -/
theorem injector_failure_no_instrumentation_witness :
    ((AddDXILAmpShaderPayloadStores wProgNoEntry 2 2).funcs = wProgNoEntry.funcs ∧
      (AddDXILAmpShaderPayloadStores wProgNoEntry 2 2).ok = false) ∧
    ((AddDXILAmpShaderPayloadStores wProgNoFunc 2 2).funcs = wProgNoFunc.funcs ∧
      (AddDXILAmpShaderPayloadStores wProgNoFunc 2 2).ok = false) :=
  ⟨(injector_failure_no_instrumentation wProgNoEntry 2 2).1 rfl,
   (injector_failure_no_instrumentation wProgNoFunc 2 2).2 rfl rfl⟩

theorem splitAtDispatch_append (a b c pv : FVal) :
    ∀ (pre post : List FInstr), (∀ i ∈ pre, isDispatch i = false) →
      splitAtDispatch (pre ++ FInstr.dispatchMesh a b c pv :: post) =
        some (pre, (a, b, c, pv), post) := by
  intro pre
  induction pre with
  | nil => intro post _; rfl
  | cons i rest ih =>
    intro post h
    have hi : isDispatch i = false := h i (List.mem_cons_self _ _)
    have hrest := ih post (fun j hj => h j (List.mem_cons_of_mem _ hj))
    cases i <;> simp [isDispatch] at hi <;>
      simp [splitAtDispatch, List.cons_append, hrest]

theorem lookup_updateFunc (funcs : List (String × List FInstr))
    (n : String) (body : List FInstr) :
    ∀ b0, funcs.lookup n = some b0 →
      (updateFunc funcs n body).lookup n = some body := by
  induction funcs with
  | nil => intro b0 h; cases h
  | cons f rest ih =>
    intro b0 h
    obtain ⟨k, v⟩ := f
    by_cases hk : k = n
    · subst hk
      simp only [updateFunc, if_pos rfl]
      simp [List.lookup]
    · have hbeq : (n == k) = false := by
        simp [Ne.symm hk]
      simp only [List.lookup, hbeq] at h
      simp only [updateFunc, if_neg hk]
      simp only [List.lookup, hbeq]
      exact ih b0 h

theorem filter_injPrelim (q : FInstr → Bool)
    (hq : ∀ v, q (FInstr.compute v) = false)
    (sm66 : Bool) (space regSlot dimX dimY payloadSize : Nat) :
    (injPrelimInstrs sm66 space regSlot dimX dimY payloadSize).filter q = [] := by
  cases sm66 <;>
    simp [injPrelimInstrs, handleCreationInstrs, List.filter_append,
      List.filter, hq]

theorem filter_copy_map (q : FInstr → Bool)
    (hq : ∀ c, q (FInstr.copy c) = false) :
    ∀ l : List CopyInstr, (l.map FInstr.copy).filter q = [] := by
  intro l
  induction l with
  | nil => rfl
  | cons c rest ih => simp [List.filter, hq, ih]

theorem filter_of_all_false (q : FInstr → Bool) :
    ∀ l : List FInstr, (∀ i ∈ l, q i = false) → l.filter q = [] := by
  intro l
  induction l with
  | nil => intro _; rfl
  | cons i rest ih =>
    intro h
    simp [List.filter, h i (List.mem_cons_self _ _),
      ih (fun j hj => h j (List.mem_cons_of_mem _ hj))]

theorem filter_dispatch_captureSeq (sm66 : Bool)
    (space regSlot dimX dimY payloadSize : Nat) (members : List DXILType)
    (a b c : FVal) (tl fl : Nat) :
    (injCaptureSeq sm66 space regSlot dimX dimY payloadSize members a b c
        tl fl).filter (fun i => isDispatch i) = [] := by
  simp only [injCaptureSeq, injCaptureBlock, List.filter_append]
  rw [filter_copy_map _ (fun cc => rfl)]
  simp [List.filter, isDispatch]

/-- C3: after `AddDXILAmpShaderPayloadStores` runs successfully on a body
with a single `dispatchMesh` call, the call's three dimension arguments in
the edited body are all the constant zero (the payload argument is kept),
and exactly one new UAV resource declaration has been appended, whose slot
id occurs among none of the pre-existing constant slot ids. -/
theorem injector_zeroes_dispatch_and_appends_uav
    (p : AmpProgram) (dimX dimY : Nat) (pre post : List FInstr)
    (a b c pv : FVal)
    (hep : p.hasEntryPoints = true)
    (hbody : p.funcs.lookup p.entryName =
      some (pre ++ FInstr.dispatchMesh a b c pv :: post))
    (hpre : ∀ i ∈ pre, isDispatch i = false)
    (hpost : ∀ i ∈ post, isDispatch i = false) :
    (AddDXILAmpShaderPayloadStores p dimX dimY).uavSlots =
      p.uavSlots ++ [some (computeRegSlot p.uavSlots)] ∧
    (∀ id : Nat, some id ∈ p.uavSlots → id ≠ computeRegSlot p.uavSlots) ∧
    (AddDXILAmpShaderPayloadStores p dimX dimY).ok = true ∧
    ∃ newBody,
      (AddDXILAmpShaderPayloadStores p dimX dimY).funcs.lookup p.entryName =
        some newBody ∧
      newBody.filter (fun i => isDispatch i) =
        [FInstr.dispatchMesh (FVal.constI32 0) (FVal.constI32 0)
          (FVal.constI32 0) pv] := by
  have hsplit := splitAtDispatch_append a b c pv pre post hpre
  unfold AddDXILAmpShaderPayloadStores
  rw [hep, hbody]
  dsimp only
  rw [hsplit]
  dsimp only
  refine ⟨rfl, ?_, rfl, ?_⟩
  · intro id hid heq
    have := computeRegSlot_gt p.uavSlots id hid
    omega
  · refine ⟨_, lookup_updateFunc _ _ _ _ hbody, ?_⟩
    simp only [List.filter_append, List.filter_cons, List.filter_nil]
    rw [filter_injPrelim _ (fun v => rfl), filter_dispatch_captureSeq,
      filter_of_all_false _ pre hpre, filter_of_all_false _ post hpost]
    rfl

/-- Witness for C3: on the concrete program the UAV table gains exactly the
fresh slot 3 after `{0, 2}`, the pass completes, and the edited body's only
dispatch call has all three dimensions zero. -/
theorem injector_zeroes_dispatch_and_appends_uav_witness :
    (AddDXILAmpShaderPayloadStores wProgOk 2 3).uavSlots =
      [some 0, some 2, some 3] ∧
    (AddDXILAmpShaderPayloadStores wProgOk 2 3).ok = true ∧
    ((AddDXILAmpShaderPayloadStores wProgOk 2 3).funcs.lookup "main").map
        (fun nb => nb.filter (fun i => isDispatch i)) =
      some [FInstr.dispatchMesh (FVal.constI32 0) (FVal.constI32 0)
        (FVal.constI32 0) FVal.globalPayloadVar] := by
  have h := injector_zeroes_dispatch_and_appends_uav wProgOk 2 3
    [FInstr.orig 0] [FInstr.ret] (FVal.origV 1) (FVal.origV 2) (FVal.origV 3)
    FVal.globalPayloadVar rfl rfl (by decide) (by decide)
  refine ⟨?_, h.2.2.1, ?_⟩
  · rw [h.1]
    rfl
  · obtain ⟨nb, hnb, hf⟩ := h.2.2.2
    rw [show ("main" : String) = wProgOk.entryName from rfl, hnb]
    simp [hf]

theorem feederCopyAux_eq_members :
    ∀ (sub full : List DXILType) (i c : Nat),
      (∀ j, j < sub.length →
        full.getD (i + j) DXILType.Unsupported = sub.getD j DXILType.Unsupported) →
      feederCopyAux full sub.length i c =
        copyStructMembers PayloadCopyDir.BufferToPayload sub i c [0] := by
  intro sub
  induction sub with
  | nil =>
    intro full i c _
    simp [feederCopyAux, copyStructMembers]
  | cons m rest ih =>
    intro full i c h
    have hm : full.getD i DXILType.Unsupported = m := by
      simpa using h 0 (by simp)
    have hrest : ∀ j, j < rest.length →
        full.getD (i + 1 + j) DXILType.Unsupported =
          rest.getD j DXILType.Unsupported := by
      intro j hj
      have := h (j + 1) (by simp; omega)
      simpa [Nat.add_assoc, Nat.add_comm 1 j] using this
    simp only [List.length_cons, feederCopyAux, hm, copyStructMembers]
    rw [ih full (i + 1) _ hrest]
    rfl

theorem leavesStruct_path_upper :
    ∀ (ms : List DXILType) (i : Nat) (p : List Nat) (c : Nat),
      ∀ l ∈ leavesStruct ms i p c,
        ∃ j suf, l.path = p ++ j :: suf ∧ i ≤ j ∧ j < i + ms.length := by
  intro ms
  induction ms with
  | nil =>
    intro i p c l hl
    simp [leavesStruct] at hl
  | cons m rest ih =>
    intro i p c l hl
    simp only [leavesStruct, List.mem_append] at hl
    cases hl with
    | inl h =>
      obtain ⟨suf, hpath⟩ := leavesOf_path_shape m (p ++ [i]) c l h
      exact ⟨i, suf, by simpa [List.append_assoc] using hpath, le_refl i,
        by simp only [List.length_cons]; omega⟩
    | inr h =>
      obtain ⟨j, suf, hpath, hij, hub⟩ := ih (i + 1) p (c + leafBytes m) l h
      exact ⟨j, suf, hpath, by omega,
        by simp only [List.length_cons] at hub ⊢; omega⟩

theorem copyTouches_leafGroup (dir : PayloadCopyDir) (l : Leaf) :
    ∀ ins ∈ leafGroup dir l, ∀ q, copyTouches ins = some q → q = l.path := by
  intro ins hins q hq
  cases dir with
  | BufferToPayload =>
    simp only [leafGroup, List.mem_cons, List.mem_singleton,
      List.not_mem_nil, or_false] at hins
    rcases hins with rfl | rfl | rfl | rfl
    · simp [copyTouches] at hq
    · simp [copyTouches] at hq
    · simp [copyTouches] at hq
    · simp only [copyTouches, Option.some.injEq] at hq
      exact hq.symm
  | PayloadToBuffer =>
    simp only [leafGroup, List.mem_cons, List.mem_singleton,
      List.not_mem_nil, or_false] at hins
    rcases hins with rfl | rfl | rfl
    · simp only [copyTouches, Option.some.injEq] at hq
      exact hq.symm
    · simp [copyTouches] at hq
    · simp [copyTouches] at hq

theorem copyStructMembers_touches (ms : List DXILType) (i0 c : Nat) :
    ∀ ins ∈ (copyStructMembers PayloadCopyDir.BufferToPayload ms i0 c [0]).1,
      ∀ q, copyTouches ins = some q →
        ∃ j suf, q = 0 :: j :: suf ∧ i0 ≤ j ∧ j < i0 + ms.length := by
  intro ins hins q hq
  rw [copyStructMembers_eq_leaves] at hins
  simp only [List.mem_flatMap] at hins
  obtain ⟨l, hl, hg⟩ := hins
  obtain ⟨j, suf, hpath, hij, hub⟩ := leavesStruct_path_upper ms i0 [0] c l hl
  have hqp := copyTouches_leafGroup PayloadCopyDir.BufferToPayload l ins hg q hq
  refine ⟨j, suf, ?_, hij, hub⟩
  rw [hqp, hpath]
  rfl

theorem filter_handleCreation (q : FInstr → Bool)
    (hq : ∀ v, q (FInstr.compute v) = false)
    (sm66 : Bool) (space regSlot : Nat) :
    (handleCreationInstrs sm66 space regSlot).filter q = [] := by
  cases sm66 <;> simp [handleCreationInstrs, List.filter, hq]

theorem filter_dispatch_feederBody (sm66 : Bool)
    (space regSlot dimX dimY payloadSize : Nat) (newMembers : List DXILType) :
    (feederBody sm66 space regSlot dimX dimY payloadSize newMembers).filter
        (fun i => isDispatch i) =
      [FInstr.dispatchMesh (fdDimX sm66 space regSlot dimX dimY payloadSize)
        (fdDimY sm66 space regSlot dimX dimY payloadSize)
        (fdDimZ sm66 space regSlot dimX dimY payloadSize)
        FVal.globalPayloadVar] := by
  simp only [feederBody, List.filter_append]
  rw [filter_handleCreation _ (fun v => rfl),
    filter_copy_map _ (fun cc => rfl)]
  simp [List.filter, isDispatch, feederHeaderStores]

theorem filter_stores_feederBody (sm66 : Bool)
    (space regSlot dimX dimY payloadSize : Nat) (newMembers : List DXILType) :
    (feederBody sm66 space regSlot dimX dimY payloadSize newMembers).filter
        (fun i => isPlainPayloadStore i) =
      feederHeaderStores sm66 space regSlot dimX dimY payloadSize
        newMembers.length := by
  simp only [feederBody, List.filter_append]
  rw [filter_handleCreation _ (fun v => rfl),
    filter_copy_map _ (fun cc => rfl)]
  simp [List.filter, isPlainPayloadStore, feederHeaderStores]

/-- C2: after `ConvertToFixedDXILAmpFeeder` runs, the declared workgroup
count is 1x1x1, the declared amplification payload byte size is the
original plus 16, and the rewritten entry function contains exactly one
`dispatchMesh` call, whose three dimension arguments are the `ExtractVal`
decodings (components 0, 1, 2) of the 16-byte header load (mask 0xf) from
the capture buffer — not literal constants. -/
theorem feeder_fixed_dispatch_post (p : AmpProgram) (dimX dimY : Nat)
    (body : List FInstr)
    (hep : p.hasEntryPoints = true)
    (hbody : p.funcs.lookup p.entryName = some body)
    (hsplit : (splitAtDispatch body).isSome = true) :
    (ConvertToFixedDXILAmpFeeder p dimX dimY).numThreads = [1, 1, 1] ∧
    (ConvertToFixedDXILAmpFeeder p dimX dimY).declaredPayloadSize =
      p.payloadSize + 16 ∧
    (ConvertToFixedDXILAmpFeeder p dimX dimY).ok = true ∧
    ∃ nb,
      (ConvertToFixedDXILAmpFeeder p dimX dimY).funcs.lookup p.entryName =
        some nb ∧
      nb.filter (fun i => isDispatch i) =
        [FInstr.dispatchMesh
          (fdDimX p.sm66 p.space (computeRegSlot p.uavSlots) dimX dimY p.payloadSize)
          (fdDimY p.sm66 p.space (computeRegSlot p.uavSlots) dimX dimY p.payloadSize)
          (fdDimZ p.sm66 p.space (computeRegSlot p.uavSlots) dimX dimY p.payloadSize)
          FVal.globalPayloadVar] ∧
      fdDimX p.sm66 p.space (computeRegSlot p.uavSlots) dimX dimY p.payloadSize =
        FVal.extractValV
          (fdHeaderLoad p.sm66 p.space (computeRegSlot p.uavSlots) dimX dimY
            p.payloadSize) 0 ∧
      fdDimY p.sm66 p.space (computeRegSlot p.uavSlots) dimX dimY p.payloadSize =
        FVal.extractValV
          (fdHeaderLoad p.sm66 p.space (computeRegSlot p.uavSlots) dimX dimY
            p.payloadSize) 1 ∧
      fdDimZ p.sm66 p.space (computeRegSlot p.uavSlots) dimX dimY p.payloadSize =
        FVal.extractValV
          (fdHeaderLoad p.sm66 p.space (computeRegSlot p.uavSlots) dimX dimY
            p.payloadSize) 2 ∧
      isConstFVal (fdDimX p.sm66 p.space (computeRegSlot p.uavSlots) dimX dimY
        p.payloadSize) = false ∧
      isConstFVal (fdDimY p.sm66 p.space (computeRegSlot p.uavSlots) dimX dimY
        p.payloadSize) = false ∧
      isConstFVal (fdDimZ p.sm66 p.space (computeRegSlot p.uavSlots) dimX dimY
        p.payloadSize) = false := by
  obtain ⟨s, hs⟩ := Option.isSome_iff_exists.mp hsplit
  unfold ConvertToFixedDXILAmpFeeder
  rw [hep, hbody]
  dsimp only
  rw [hs]
  dsimp only
  refine ⟨rfl, rfl, rfl, _, lookup_updateFunc _ _ _ _ hbody,
    filter_dispatch_feederBody _ _ _ _ _ _ _, rfl, rfl, rfl, rfl, rfl, rfl⟩

/-- Witness for C2: the feeder's declared thread counts, payload size and
completion at the concrete program. -/
theorem feeder_fixed_dispatch_post_witness :
    (ConvertToFixedDXILAmpFeeder wProgOk 2 3).numThreads = [1, 1, 1] ∧
    (ConvertToFixedDXILAmpFeeder wProgOk 2 3).declaredPayloadSize = 12 + 16 ∧
    (ConvertToFixedDXILAmpFeeder wProgOk 2 3).ok = true := by
  have h := feeder_fixed_dispatch_post wProgOk 2 3 _ rfl rfl (by decide)
  exact ⟨h.1, h.2.1, h.2.2.1⟩

/-- C10: in the function the feeder synthesizes, the payload copier is
invoked exactly on the original payload members with their original
indices — running the emitted loop over the appended member list equals
running the member recursion over the original list alone — every payload
GEP chain the copier emits addresses a top-level member index below the
original count (so the copier never touches the four appended members),
and the four decoded header scalars are written by plain stores to exactly
the four appended trailing member indices. -/
theorem feeder_copier_touches_only_original (p : AmpProgram) (dimX dimY : Nat)
    (body : List FInstr)
    (hep : p.hasEntryPoints = true)
    (hbody : p.funcs.lookup p.entryName = some body)
    (hsplit : (splitAtDispatch body).isSome = true) :
    (ConvertToFixedDXILAmpFeeder p dimX dimY).payloadMembers =
      p.payloadMembers ++
        [DXILType.Scalar ScalarKind.Int 32, DXILType.Scalar ScalarKind.Int 32,
         DXILType.Scalar ScalarKind.Int 32, DXILType.Scalar ScalarKind.Int 32] ∧
    feederCopyLoop
        (p.payloadMembers ++
          [DXILType.Scalar ScalarKind.Int 32, DXILType.Scalar ScalarKind.Int 32,
           DXILType.Scalar ScalarKind.Int 32, DXILType.Scalar ScalarKind.Int 32])
        16 =
      copyStructMembers PayloadCopyDir.BufferToPayload p.payloadMembers 0 16 [0] ∧
    (∀ ins ∈ (feederCopyLoop
        (p.payloadMembers ++
          [DXILType.Scalar ScalarKind.Int 32, DXILType.Scalar ScalarKind.Int 32,
           DXILType.Scalar ScalarKind.Int 32, DXILType.Scalar ScalarKind.Int 32])
        16).1,
      ∀ q, copyTouches ins = some q →
        ∃ j suf, q = 0 :: j :: suf ∧ j < p.payloadMembers.length) ∧
    ∃ nb,
      (ConvertToFixedDXILAmpFeeder p dimX dimY).funcs.lookup p.entryName =
        some nb ∧
      nb.filter (fun i => isPlainPayloadStore i) =
        [FInstr.storePayloadIdx [0, p.payloadMembers.length]
          (fdDimX p.sm66 p.space (computeRegSlot p.uavSlots) dimX dimY
            p.payloadSize) 4,
         FInstr.storePayloadIdx [0, p.payloadMembers.length + 1]
          (fdDimY p.sm66 p.space (computeRegSlot p.uavSlots) dimX dimY
            p.payloadSize) 4,
         FInstr.storePayloadIdx [0, p.payloadMembers.length + 2]
          (fdDimZ p.sm66 p.space (computeRegSlot p.uavSlots) dimX dimY
            p.payloadSize) 4,
         FInstr.storePayloadIdx [0, p.payloadMembers.length + 3]
          (fdStoredOffset p.sm66 p.space (computeRegSlot p.uavSlots) dimX dimY
            p.payloadSize) 4] := by
  obtain ⟨s, hs⟩ := Option.isSome_iff_exists.mp hsplit
  have hcopy : feederCopyLoop
      (p.payloadMembers ++
        [DXILType.Scalar ScalarKind.Int 32, DXILType.Scalar ScalarKind.Int 32,
         DXILType.Scalar ScalarKind.Int 32, DXILType.Scalar ScalarKind.Int 32])
      16 =
      copyStructMembers PayloadCopyDir.BufferToPayload p.payloadMembers 0 16
        [0] := by
    unfold feederCopyLoop
    have hlen : (p.payloadMembers ++
        [DXILType.Scalar ScalarKind.Int 32, DXILType.Scalar ScalarKind.Int 32,
         DXILType.Scalar ScalarKind.Int 32,
         DXILType.Scalar ScalarKind.Int 32]).length - 4 =
        p.payloadMembers.length := by
      simp
    rw [hlen]
    apply feederCopyAux_eq_members
    intro j hj
    rw [Nat.zero_add]
    exact List.getD_append _ _ _ _ hj
  refine ⟨?_, hcopy, ?_, ?_⟩
  · unfold ConvertToFixedDXILAmpFeeder
    rw [hep, hbody]
    dsimp only
    rw [hs]
    rfl
  · intro ins hins q hq
    rw [hcopy] at hins
    obtain ⟨j, suf, hji, h0j, hub⟩ :=
      copyStructMembers_touches p.payloadMembers 0 16 ins hins q hq
    exact ⟨j, suf, hji, by omega⟩
  · have hlook : (ConvertToFixedDXILAmpFeeder p dimX dimY).funcs.lookup
        p.entryName =
        some (feederBody p.sm66 p.space (computeRegSlot p.uavSlots) dimX dimY
          p.payloadSize
          (p.payloadMembers ++
            [DXILType.Scalar ScalarKind.Int 32, DXILType.Scalar ScalarKind.Int 32,
             DXILType.Scalar ScalarKind.Int 32,
             DXILType.Scalar ScalarKind.Int 32])) := by
      unfold ConvertToFixedDXILAmpFeeder
      rw [hep, hbody]
      dsimp only
      rw [hs]
      dsimp only
      exact lookup_updateFunc _ _ _ _ hbody
    refine ⟨_, hlook, ?_⟩
    rw [filter_stores_feederBody]
    simp [feederHeaderStores, List.length_append, Nat.add_sub_cancel]

theorem blocksAux_append_no_term :
    ∀ (B : List FInstr), (∀ i ∈ B, isTerminator i = false) →
      ∀ (acc rest : List FInstr),
        blocksAux acc (B ++ rest) = blocksAux (acc ++ B) rest := by
  intro B
  induction B with
  | nil =>
    intro _ acc rest
    simp
  | cons i B2 ih =>
    intro h acc rest
    have hi : isTerminator i = false := h i (List.mem_cons_self _ _)
    simp only [List.cons_append, blocksAux, hi, Bool.false_eq_true, if_false]
    have hrec := ih (fun j hj => h j (List.mem_cons_of_mem _ hj)) (acc ++ [i]) rest
    simp only [List.append_eq] at hrec ⊢
    rw [hrec]
    simp [List.append_assoc]

theorem blocksAux_cons_term (t : FInstr) (ht : isTerminator t = true)
    (acc rest : List FInstr) :
    blocksAux acc (t :: rest) = (acc ++ [t]) :: blocksAux [] rest := by
  simp [blocksAux, ht]

theorem noterm_injPrelim (sm66 : Bool) (space regSlot dimX dimY payloadSize : Nat) :
    ∀ i ∈ injPrelimInstrs sm66 space regSlot dimX dimY payloadSize,
      isTerminator i = false := by
  cases sm66 <;>
    simp [injPrelimInstrs, handleCreationInstrs, isTerminator]

theorem nocapture_injPrelim (sm66 : Bool)
    (space regSlot dimX dimY payloadSize : Nat) :
    ∀ i ∈ injPrelimInstrs sm66 space regSlot dimX dimY payloadSize,
      isCaptureStore i = false := by
  cases sm66 <;>
    simp [injPrelimInstrs, handleCreationInstrs, isCaptureStore]

theorem notargets_injPrelim (sm66 : Bool)
    (space regSlot dimX dimY payloadSize : Nat) :
    ∀ i ∈ injPrelimInstrs sm66 space regSlot dimX dimY payloadSize,
      branchTargets i = [] := by
  cases sm66 <;>
    simp [injPrelimInstrs, handleCreationInstrs, branchTargets]

theorem all_map_copy (q : FInstr → Bool) (hq : ∀ cc, q (FInstr.copy cc) = false) :
    ∀ (l : List CopyInstr), ∀ i ∈ l.map FInstr.copy, q i = false := by
  intro l i hi
  obtain ⟨cc, _, rfl⟩ := List.mem_map.mp hi
  exact hq cc

theorem blocksAux_cons_no_term (i : FInstr) (hi : isTerminator i = false)
    (acc rest : List FInstr) :
    blocksAux acc (i :: rest) = blocksAux (acc ++ [i]) rest := by
  simp [blocksAux, hi]

theorem blocksOf_injected (sm66 : Bool)
    (space regSlot dimX dimY payloadSize : Nat) (members : List DXILType)
    (a b c pv : FVal) (pre : List FInstr)
    (hpre : ∀ i ∈ pre, isTerminator i = false) :
    blocksOf
      (injPrelimInstrs sm66 space regSlot dimX dimY payloadSize ++ pre ++
        injCaptureSeq sm66 space regSlot dimX dimY payloadSize members a b c
          1 2 ++
        [FInstr.dispatchMesh (FVal.constI32 0) (FVal.constI32 0)
          (FVal.constI32 0) pv] ++
        [FInstr.ret]) =
      [injPrelimInstrs sm66 space regSlot dimX dimY payloadSize ++ pre ++
        [FInstr.compute injThreadIsZero,
         FInstr.condBranch injThreadIsZero 1 2],
       injCaptureBlock sm66 space regSlot dimX dimY payloadSize members a b c 2,
       [FInstr.dispatchMesh (FVal.constI32 0) (FVal.constI32 0)
         (FVal.constI32 0) pv, FInstr.ret]] := by
  unfold blocksOf
  simp only [injCaptureSeq, injCaptureBlock, List.append_assoc,
    List.cons_append, List.nil_append]
  rw [blocksAux_append_no_term _
    (noterm_injPrelim sm66 space regSlot dimX dimY payloadSize)]
  rw [blocksAux_append_no_term _ hpre]
  simp only [blocksAux_cons_no_term, blocksAux_cons_term, isTerminator]
  rw [blocksAux_append_no_term _
    (all_map_copy _ (fun cc => rfl) _)]
  simp only [blocksAux_cons_no_term, blocksAux_cons_term, isTerminator]
  simp [blocksAux, List.append_assoc]

theorem evalFVal_injThreadIsZero_ne (env : GpuEnv)
    (h : u32 env.flatThreadId ≠ 0) : evalFVal env injThreadIsZero = 0 := by
  simp only [injThreadIsZero, evalFVal]
  rw [if_neg]
  intro hc
  apply h
  simpa [u32] using hc

theorem captureBlock_targets (sm66 : Bool)
    (space regSlot dimX dimY payloadSize : Nat) (members : List DXILType)
    (a b c : FVal) (fl : Nat) :
    ∀ i ∈ injCaptureBlock sm66 space regSlot dimX dimY payloadSize members
        a b c fl,
      branchTargets i = [] ∨ i = FInstr.branch fl := by
  intro i hi
  simp only [injCaptureBlock, List.mem_append, List.mem_cons,
    List.mem_singleton, List.not_mem_nil, or_false] at hi
  rcases hi with ((rfl | rfl | rfl | rfl | rfl | rfl) | h) | rfl
  · exact Or.inl rfl
  · exact Or.inl rfl
  · exact Or.inl rfl
  · exact Or.inl rfl
  · exact Or.inl rfl
  · exact Or.inl rfl
  · obtain ⟨cc, _, rfl⟩ := List.mem_map.mp h
    exact Or.inl rfl
  · exact Or.inr rfl

theorem captureBlock_head (sm66 : Bool)
    (space regSlot dimX dimY payloadSize : Nat) (members : List DXILType)
    (a b c : FVal) (fl : Nat) :
    (injCaptureBlock sm66 space regSlot dimX dimY payloadSize members
      a b c fl).head? = some (FInstr.barrier 9) := rfl

/-- C4: in the body edited by the Payload-Store Injector (canonical
single-block entry: original instructions, the dispatch call, `ret`), the
edited function splits into exactly three blocks; every capture-buffer
store lies in the new capture block; the block before it ends in a
conditional branch on flattened-thread-index-equals-zero routing true to
the capture block (label 1) and false to the continue block (label 2),
which holds the zeroed `dispatchMesh`; no other instruction targets the
capture block; the full barrier (`0x1 | 0x8`) is the capture block's first
instruction, preceding every payload read in it; and a thread whose
flattened index is nonzero executes no capture-buffer store. -/
theorem injector_capture_guarded_single_thread (p : AmpProgram)
    (dimX dimY : Nat) (pre : List FInstr) (a b c pv : FVal)
    (hep : p.hasEntryPoints = true)
    (hbody : p.funcs.lookup p.entryName =
      some (pre ++ FInstr.dispatchMesh a b c pv :: [FInstr.ret]))
    (horig : ∀ i ∈ pre, ∃ k, i = FInstr.orig k) :
    ∃ nb,
      (AddDXILAmpShaderPayloadStores p dimX dimY).funcs.lookup p.entryName =
        some nb ∧
      blocksOf nb =
        [injPrelimInstrs p.sm66 p.space (computeRegSlot p.uavSlots) dimX dimY
            p.payloadSize ++ pre ++
          [FInstr.compute injThreadIsZero,
           FInstr.condBranch injThreadIsZero 1 2],
         injCaptureBlock p.sm66 p.space (computeRegSlot p.uavSlots) dimX dimY
           p.payloadSize p.payloadMembers a b c 2,
         [FInstr.dispatchMesh (FVal.constI32 0) (FVal.constI32 0)
           (FVal.constI32 0) pv, FInstr.ret]] ∧
      (∀ i ∈ nb, isCaptureStore i = true →
        i ∈ injCaptureBlock p.sm66 p.space (computeRegSlot p.uavSlots) dimX
          dimY p.payloadSize p.payloadMembers a b c 2) ∧
      (∀ i ∈ nb, 1 ∈ branchTargets i →
        i = FInstr.condBranch injThreadIsZero 1 2) ∧
      (injCaptureBlock p.sm66 p.space (computeRegSlot p.uavSlots) dimX dimY
        p.payloadSize p.payloadMembers a b c 2).head? =
          some (FInstr.barrier 9) ∧
      (∀ (j : Nat) (ins : FInstr),
        (injCaptureBlock p.sm66 p.space (computeRegSlot p.uavSlots) dimX dimY
          p.payloadSize p.payloadMembers a b c 2)[j]? = some ins →
        isPayloadRead ins = true → 0 < j) ∧
      (∀ (env : GpuEnv) (fuel : Nat), u32 env.flatThreadId ≠ 0 →
        ∀ i ∈ runBlocks (blocksOf nb) env fuel 0, isCaptureStore i = false) := by
  have hnodisp : ∀ i ∈ pre, isDispatch i = false := by
    intro i hi
    obtain ⟨k, rfl⟩ := horig i hi
    rfl
  have hnoterm : ∀ i ∈ pre, isTerminator i = false := by
    intro i hi
    obtain ⟨k, rfl⟩ := horig i hi
    rfl
  have hsplit := splitAtDispatch_append a b c pv pre [FInstr.ret] hnodisp
  have hcount : pre.countP (fun i => isTerminator i) = 0 := by
    rw [List.countP_eq_zero]
    intro i hi
    simp [hnoterm i hi]
  have hnb : (AddDXILAmpShaderPayloadStores p dimX dimY).funcs.lookup
      p.entryName =
      some (injPrelimInstrs p.sm66 p.space (computeRegSlot p.uavSlots) dimX
          dimY p.payloadSize ++ pre ++
        injCaptureSeq p.sm66 p.space (computeRegSlot p.uavSlots) dimX dimY
          p.payloadSize p.payloadMembers a b c 1 2 ++
        [FInstr.dispatchMesh (FVal.constI32 0) (FVal.constI32 0)
          (FVal.constI32 0) pv] ++
        [FInstr.ret]) := by
    unfold AddDXILAmpShaderPayloadStores
    rw [hep, hbody]
    dsimp only
    rw [hsplit]
    dsimp only
    rw [hcount]
    norm_num
    exact lookup_updateFunc _ _ _ _ hbody
  refine ⟨_, hnb, blocksOf_injected _ _ _ _ _ _ _ _ _ _ _ _ hnoterm, ?_, ?_,
    captureBlock_head _ _ _ _ _ _ _ _ _ _ _, ?_, ?_⟩
  · intro i hi hcap
    simp only [injCaptureSeq, List.append_assoc, List.cons_append,
      List.nil_append, List.mem_append, List.mem_cons] at hi
    rcases hi with h1 | h2 | rfl | rfl | h5 | rfl | (rfl | hf)
    · rw [nocapture_injPrelim _ _ _ _ _ _ i h1] at hcap
      cases hcap
    · obtain ⟨k, rfl⟩ := horig i h2
      cases hcap
    · cases hcap
    · cases hcap
    · exact h5
    · cases hcap
    · cases hcap
    · cases hf
  · intro i hi htgt
    simp only [injCaptureSeq, List.append_assoc, List.cons_append,
      List.nil_append, List.mem_append, List.mem_cons] at hi
    rcases hi with h1 | h2 | rfl | rfl | h5 | rfl | (rfl | hf)
    · rw [notargets_injPrelim _ _ _ _ _ _ i h1] at htgt
      cases htgt
    · obtain ⟨k, rfl⟩ := horig i h2
      cases htgt
    · cases htgt
    · rfl
    · rcases captureBlock_targets _ _ _ _ _ _ _ _ _ _ _ i h5 with he | rfl
      · rw [he] at htgt
        cases htgt
      · simp [branchTargets] at htgt
    · cases htgt
    · cases htgt
    · cases hf
  · intro j ins hj hread
    cases j with
    | zero =>
      have : ins = FInstr.barrier 9 := by
        have hh := captureBlock_head p.sm66 p.space (computeRegSlot p.uavSlots)
          dimX dimY p.payloadSize p.payloadMembers a b c 2
        rw [← List.head?_eq_getElem?] at hj
        rw [hh] at hj
        exact (Option.some.injEq _ _).mp hj.symm
      rw [this] at hread
      cases hread
    | succ j2 => omega
  · intro env fuel hne i hi
    rw [blocksOf_injected _ _ _ _ _ _ _ _ _ _ _ _ hnoterm] at hi
    have hcond := evalFVal_injThreadIsZero_ne env hne
    have hlast : (injPrelimInstrs p.sm66 p.space (computeRegSlot p.uavSlots)
        dimX dimY p.payloadSize ++ pre ++
        [FInstr.compute injThreadIsZero,
         FInstr.condBranch injThreadIsZero 1 2]).getLast? =
        some (FInstr.condBranch injThreadIsZero 1 2) := by
      rw [show injPrelimInstrs p.sm66 p.space (computeRegSlot p.uavSlots)
          dimX dimY p.payloadSize ++ pre ++
          [FInstr.compute injThreadIsZero,
           FInstr.condBranch injThreadIsZero 1 2] =
          (injPrelimInstrs p.sm66 p.space (computeRegSlot p.uavSlots) dimX
            dimY p.payloadSize ++ pre ++ [FInstr.compute injThreadIsZero]) ++
          [FInstr.condBranch injThreadIsZero 1 2] from by
        simp]
      exact List.getLast?_concat _
    cases fuel with
    | zero => simp [runBlocks] at hi
    | succ f =>
      simp only [runBlocks, List.getElem?_cons_zero, hlast, hcond] at hi
      simp only [ne_eq, not_true_eq_false, if_false, ite_self,
        not_false_eq_true, if_true, List.mem_append] at hi
      rcases hi with hB0 | hrest
      · simp only [List.mem_append, List.mem_cons, List.not_mem_nil,
          or_false] at hB0
        rcases hB0 with (h1 | h2) | rfl | rfl
        · exact nocapture_injPrelim _ _ _ _ _ _ i h1
        · obtain ⟨k, rfl⟩ := horig i h2
          rfl
        · rfl
        · rfl
      · cases f with
        | zero => simp [runBlocks] at hrest
        | succ f2 =>
          simp only [runBlocks] at hrest
          simp at hrest
          rcases hrest with rfl | rfl
          · rfl
          · rfl

/-- Witness for C4: on the concrete program the edited body has exactly
three blocks and the middle (capture) block starts with the full barrier. -/
theorem injector_capture_guarded_single_thread_witness :
    ((AddDXILAmpShaderPayloadStores wProgOk 2 3).funcs.lookup "main").map
        (fun nb => (blocksOf nb).length) = some 3 ∧
    ((AddDXILAmpShaderPayloadStores wProgOk 2 3).funcs.lookup "main").map
        (fun nb => ((blocksOf nb).getD 1 []).head?) =
      some (some (FInstr.barrier 9)) := by
  obtain ⟨nb, hnb, hblocks, _, _, hhead, _, _⟩ :=
    injector_capture_guarded_single_thread wProgOk 2 3 [FInstr.orig 0]
      (FVal.origV 1) (FVal.origV 2) (FVal.origV 3) FVal.globalPayloadVar rfl
      rfl
      (by
        intro i hi
        rw [List.mem_singleton] at hi
        exact ⟨0, hi⟩)
  rw [show ("main" : String) = wProgOk.entryName from rfl, hnb]
  constructor
  · simp [hblocks]
  · simp [hblocks, hhead]

/-- Witness for C10: on the concrete program the feeder appends exactly the
four i32 members and its copy loop runs exactly over the two original
members. -/
theorem feeder_copier_touches_only_original_witness :
    (ConvertToFixedDXILAmpFeeder wProgOk 2 3).payloadMembers =
      wProgOk.payloadMembers ++
        [DXILType.Scalar ScalarKind.Int 32, DXILType.Scalar ScalarKind.Int 32,
         DXILType.Scalar ScalarKind.Int 32,
         DXILType.Scalar ScalarKind.Int 32] ∧
    feederCopyLoop ((ConvertToFixedDXILAmpFeeder wProgOk 2 3).payloadMembers)
        16 =
      copyStructMembers PayloadCopyDir.BufferToPayload wProgOk.payloadMembers
        0 16 [0] := by
  have h := feeder_copier_touches_only_original wProgOk 2 3 _ rfl rfl
    (by decide)
  refine ⟨h.1, ?_⟩
  rw [h.1]
  exact h.2.1
